import Mathlib

/-!
Verification development for the statement-parsing pipeline of the
personal-adviser repository.  The definitions below are a shallow
embedding of `src/lib/parsers/bank-of-america-parser.ts`,
`src/lib/parsers/base-parser.ts`, `src/lib/extraction-templates.ts` and
the `DocumentProcessor` module:
JavaScript numbers are modelled as rationals (`ℚ`), nullable values as
`Option`, caught exceptions as explicit `none`-returning branches, and
the specific regular expressions used by the parser as dedicated
executable matchers with JavaScript leftmost/greedy semantics.
-/

unseal Rat.add Rat.mul Rat.inv Rat.sub Rat.ofScientific

namespace BofA

/-! ## Character and string utilities -/

/-- JavaScript `\s` restricted to the whitespace characters that occur in the
parsed documents. -/
def jsWs (c : Char) : Bool :=
  c = ' ' || c = '\t' || c = '\n' || c = '\r'

/-- `String.toLowerCase()` (per-character ASCII lowering). -/
def lowerStr (s : String) : String :=
  String.mk (s.toList.map Char.toLower)

/-- JavaScript `String.prototype.trim()` (restricted to the whitespace
characters occurring in the parsed documents). -/
def jsTrim (s : String) : String :=
  String.mk (((s.toList.dropWhile jsWs).reverse.dropWhile jsWs).reverse)

/-- Substring search on character lists: does `sub` occur inside `s`?
Mirrors JavaScript `String.prototype.includes`. -/
def listHasInfix (s sub : List Char) : Bool :=
  match s with
  | [] => sub.isEmpty
  | _ :: t => sub.isPrefixOf s || listHasInfix t sub

/-- JavaScript `s.includes(sub)` (case-sensitive). -/
def strIncludes (s sub : String) : Bool :=
  listHasInfix s.toList sub.toList

/-- Case-insensitive containment (used where the source lowercases both
sides, or applies an `/i` regex made of a literal). -/
def strIncludesCI (s sub : String) : Bool :=
  strIncludes (lowerStr s) (lowerStr sub)

/-- Try a matcher at every start position, leftmost first: the semantics of
an unanchored JavaScript regex `match`/`exec`. -/
def scanFirst (f : List Char → Option α) : List Char → Option α
  | [] => f []
  | s@(_ :: t) => (f s).orElse (fun _ => scanFirst f t)

/-- Boolean existence version of `scanFirst` (regex `test`). -/
def existsPos (p : List Char → Bool) : List Char → Bool
  | [] => p []
  | s@(_ :: t) => p s || existsPos p t

def digitVal (c : Char) : ℕ := c.toNat - 48

def natFromDigits (l : List Char) : ℕ :=
  l.foldl (fun n c => 10 * n + digitVal c) 0

/-- Literal matcher: consume `lit` from the front of `s`. -/
def dropLit (lit : List Char) (s : List Char) : Option (List Char) :=
  if lit.isPrefixOf s then some (s.drop lit.length) else none

/-- Case-insensitive literal matcher, returning the consumed original
characters together with the rest (regex capture keeps original casing). -/
def dropLitCI (lit : List Char) (s : List Char) : Option (List Char × List Char) :=
  let p := s.take lit.length
  if p.length = lit.length && p.map Char.toLower = lit.map Char.toLower then
    some (p, s.drop lit.length)
  else none

/-- Regex `\s+` (greedy; the characters that follow it in every pattern used
here are never whitespace, so maximal munch is exact). -/
def wsPlus (s : List Char) : Option (List Char) :=
  let r := s.takeWhile jsWs
  if r.isEmpty then none else some (s.drop r.length)

/-- Regex `\s*`. -/
def wsStar (s : List Char) : List Char := s.dropWhile jsWs

/-- Regex `[c₁c₂…]?` for a character class `cs` (greedy; exact here because
in every use the continuation cannot match a class character). -/
def optChar (cs : List Char) (s : List Char) : List Char :=
  match s with
  | c :: t => if cs.contains c then t else s
  | [] => s

/-! ## The parser's regular expressions as executable matchers -/

/-- Core of `[\d,]+\.\d{2}`: a maximal nonempty digit/comma run, a dot and
two digits.  Backtracking cannot shorten the run (run characters never match
`\.`), so maximal munch is the exact JavaScript behaviour.  Returns the
capture pieces `(run, d1, d2)`. -/
def amountCore (s : List Char) : Option (List Char × Char × Char) :=
  let run := s.takeWhile (fun c => c.isDigit || c = ',')
  if run.isEmpty then none
  else
    match s.drop run.length with
    | '.' :: d1 :: d2 :: _ =>
      if d1.isDigit && d2.isDigit then some (run, d1, d2) else none
    | _ => none

/-- `parseFloat(match[1].replace(/,/g, ''))` for a `[\d,]+\.\d{2}` capture. -/
def ratFromCapture (run : List Char) (d1 d2 : Char) : ℚ :=
  (natFromDigits (run.filter Char.isDigit) : ℚ) +
    ((10 * digitVal d1 + digitVal d2 : ℕ) : ℚ) / 100

/-- One attempt of `\$?([\d,]+\.\d{2})` at a fixed position (the optional
dollar sign is consumed when present; skipping it cannot help since `[\d,]`
never matches `$`). -/
def tryAmountAt (s : List Char) : Option ℚ :=
  let s1 := match s with | '$' :: t => t | _ => s
  (amountCore s1).map (fun r => ratFromCapture r.1 r.2.1 r.2.2)

/-- First (leftmost) match value of `\$?([\d,]+\.\d{2})`. -/
def amountFirst (s : List Char) : Option ℚ := scanFirst tryAmountAt s

/-- One attempt of `\(\$?[\d,]+\.\d{2}\)` at a fixed position. -/
def parenAmountAt (s : List Char) : Bool :=
  match s with
  | '(' :: t =>
    let t1 := match t with | '$' :: u => u | _ => t
    (match amountCore t1 with
     | some (run, _, _) =>
       (match t1.drop (run.length + 3) with | ')' :: _ => true | _ => false)
     | none => false)
  | _ => false

/-- `text.includes('-') || /\(\$?[\d,]+\.\d{2}\)/.test(text)`:
the negativity check of `extractAmount`. -/
def hasNegMarker (s : String) : Bool :=
  s.toList.contains '-' || existsPos parenAmountAt s.toList

/-- `extractAmount` (bank-of-america-parser.ts, lines 1515-1530): first
`\$?([\d,]+\.\d{2})` match, negated when the text carries a minus sign or a
parenthesised amount. -/
def extractAmount (s : String) : Option ℚ :=
  match amountFirst s.toList with
  | none => none
  | some v => some (if hasNegMarker s then -v else v)

/-- One attempt of `(\d{2})\/(\d{2})\/(\d{2}|\d{4})` at a position; the first
alternative `\d{2}` of the year always succeeds when four digits are present,
so `match[0]` is always the 8-character prefix. -/
def dateAt8 (s : List Char) : Option (List Char) :=
  match s with
  | a :: b :: '/' :: c :: d :: '/' :: e :: f :: _ =>
    if a.isDigit && b.isDigit && c.isDigit && d.isDigit && e.isDigit && f.isDigit then
      some [a, b, '/', c, d, '/', e, f]
    else none
  | _ => none

/-- `row[0].match(/(\d{2})\/(\d{2})\/(\d{2}|\d{4})/)` whole-match text. -/
def dateMatch8 (s : String) : Option String :=
  (scanFirst dateAt8 s.toList).map String.mk

/-- `\d{2}` followed by more input: helper for the loose date test. -/
def twoDigitsAhead (s : List Char) : Bool :=
  match s with
  | e1 :: e2 :: _ => e1.isDigit && e2.isDigit
  | _ => false

/-- After the first digit group of `/\d{1,2}\/\d{1,2}\/\d{2,4}/`: a slash,
one or two digits, a slash and at least two digits. -/
def looseDateTail (s : List Char) : Bool :=
  match s with
  | '/' :: d1 :: rest =>
    d1.isDigit &&
      (match rest with
       | d2 :: r2 =>
         (d2.isDigit && (match r2 with | '/' :: r3 => twoDigitsAhead r3 | _ => false)) ||
           (match rest with | '/' :: r3 => twoDigitsAhead r3 | _ => false)
       | [] => false)
  | _ => false

/-- One attempt of `/\d{1,2}\/\d{1,2}\/\d{2,4}/` at a position. -/
def looseDateAt (s : List Char) : Bool :=
  match s with
  | c1 :: rest =>
    c1.isDigit &&
      ((match rest with
        | c2 :: r2 => c2.isDigit && looseDateTail r2
        | [] => false) ||
        looseDateTail rest)
  | [] => false

/-- `/\d{1,2}\/\d{1,2}\/\d{2,4}/.test(s)`. -/
def looseDateTest (s : String) : Bool := existsPos looseDateAt s.toList

/-- `/^\d+\.\d{2}$/.test(s)`. -/
def anchoredAmountTest (s : String) : Bool :=
  let l := s.toList
  let run := l.takeWhile Char.isDigit
  !run.isEmpty &&
    (match l.drop run.length with
     | ['.', d1, d2] => d1.isDigit && d2.isDigit
     | _ => false)

/-- `/\$?[\d,]+\.\d{2}/.test(s)`. -/
def amountShapeTest (s : String) : Bool := (amountFirst s.toList).isSome

/-- Regex `[x\*]*` (on lowercased input). -/
def xStar (s : List Char) : List Char := s.dropWhile (fun c => c = 'x' || c = '*')

/-- Regex `\d{4}` as a test (at least four digits ahead). -/
def digits4Test (s : List Char) : Bool :=
  match s with
  | a :: b :: c :: d :: _ => a.isDigit && b.isDigit && c.isDigit && d.isDigit
  | _ => false

/-- Regex `\d{4}` as a consumer, returning the four digit characters. -/
def digits4Take (s : List Char) : Option (List Char × List Char) :=
  match s with
  | a :: b :: c :: d :: r =>
    if a.isDigit && b.isDigit && c.isDigit && d.isDigit then some ([a, b, c, d], r)
    else none
  | _ => none

/-- One attempt of `/account\s+(?:number|#)?\s*[:.]?\s*[x\*]*\d{4}/i` at a
position of the lowercased text (used by `isCombinedStatementPage` and
`isEndOfAccountSection`).  The three branches of the optional group are tried
in regex order, each with the full continuation. -/
def accountRefAt (s : List Char) : Bool :=
  match dropLit "account".toList s with
  | none => false
  | some s1 =>
    match wsPlus s1 with
    | none => false
    | some s2 =>
      let cont := fun (t : List Char) =>
        digits4Test (xStar (wsStar (optChar [':', '.'] (wsStar t))))
      (match dropLit "number".toList s2 with | some t => cont t | none => false) ||
        (match dropLit "#".toList s2 with | some t => cont t | none => false) ||
        cont s2

/-- `/account\s+(?:number|#)?\s*[:.]?\s*[x\*]*(\d{4})/i.test(text)`. -/
def accountRefTest (s : String) : Bool :=
  existsPos accountRefAt (lowerStr s).toList

/-- One repetition of `(?:[x\*]*\d{4}\s*)` (consumes at least four
characters). -/
def oneRep (s : List Char) : Option (List Char) :=
  match digits4Take (xStar s) with
  | some (_, r) => some (wsStar r)
  | none => none

/-- Positions reached after `k ≥ 1` repetitions of `(?:[x\*]*\d{4}\s*)`,
deepest (greedy) first — the backtracking order of `(?:…)+`. -/
def repPositions : ℕ → List Char → List (List Char)
  | 0, _ => []
  | fuel + 1, s =>
    match oneRep s with
    | none => []
    | some s1 => repPositions fuel s1 ++ [s1]

/-- One attempt of the `detectAccountsFromText` account-number regex
`/account\s+(?:number|#)?\s*[:.]?\s*(?:[x\*]*\d{4}\s*)+([0-9]{4})/i` at a
position of the lowercased text, returning the capture (four digits). -/
def acctNumCaptureAt (s : List Char) : Option (List Char) :=
  match dropLit "account".toList s with
  | none => none
  | some s1 =>
    match wsPlus s1 with
    | none => none
    | some s2 =>
      let cont := fun (t : List Char) =>
        let t1 := wsStar (optChar [':', '.'] (wsStar t))
        (repPositions (t1.length + 1) t1).findSome?
          (fun p => (digits4Take p).map Prod.fst)
      ((match dropLit "number".toList s2 with | some t => cont t | none => none) <|>
        (match dropLit "#".toList s2 with | some t => cont t | none => none)) <|>
        cont s2

/-- `text.match(accountNumberRegex)` capture group 1 (digits are unchanged
by lowercasing, so scanning the lowercased text is exact). -/
def acctNumCapture (s : String) : Option String :=
  (scanFirst acctNumCaptureAt (lowerStr s).toList).map String.mk

/-- One attempt of a `w₁\s+w₂\s+…` phrase regex at a position. -/
def phraseAt (words : List (List Char)) (s : List Char) : Bool :=
  match words with
  | [] => true
  | w :: rest =>
    match dropLit w s with
    | none => false
    | some s1 =>
      match rest with
      | [] => true
      | _ :: _ =>
        match wsPlus s1 with
        | none => false
        | some s2 => phraseAt rest s2

/-- `/w₁\s+w₂\s+…/i.test(s)`. -/
def phraseTest (words : List String) (s : String) : Bool :=
  existsPos (phraseAt (words.map (fun w => (lowerStr w).toList))) (lowerStr s).toList

/-- One attempt of `/page\s+(\d+)/i` at a position (lowercased text). -/
def pageRefAt (s : List Char) : Option ℕ :=
  match dropLit "page".toList s with
  | none => none
  | some s1 =>
    match wsPlus s1 with
    | none => none
    | some s2 =>
      let ds := s2.takeWhile Char.isDigit
      if ds.isEmpty then none else some (natFromDigits ds)

/-- `pageRefText.match(/page\s+(\d+)/i)` with `parseInt` of the capture. -/
def pageRefMatch (s : String) : Option ℕ :=
  scanFirst pageRefAt (lowerStr s).toList

/-- `String.prototype.replace(',', '')`: removes only the first comma. -/
def removeFirstComma : List Char → List Char
  | [] => []
  | c :: t => if c = ',' then t else c :: removeFirstComma t

/-- JavaScript `parseFloat` on a string known to begin with digits, a comma
or a dot: parses the leading `\d*(\.\d*)?` prefix; `none` models `NaN`. -/
def parseFloatPrefix (l : List Char) : Option ℚ :=
  let ip := l.takeWhile Char.isDigit
  match l.drop ip.length with
  | '.' :: r =>
    let fp := r.takeWhile Char.isDigit
    if ip.isEmpty && fp.isEmpty then none
    else some ((natFromDigits ip : ℚ) + (natFromDigits fp : ℚ) / (10 : ℚ) ^ fp.length)
  | _ => if ip.isEmpty then none else some ((natFromDigits ip : ℚ))

/-- One attempt of `\$?([\d,]+\.\d{2})` returning the raw capture text. -/
def amountCaptureAt (s : List Char) : Option (List Char) :=
  let s1 := match s with | '$' :: t => t | _ => s
  (amountCore s1).map (fun r => r.1 ++ ['.', r.2.1, r.2.2])

/-- `text.match(/\$?([\d,]+\.\d{2})/)` then
`parseFloat(match[1].replace(',', ''))` — the balance parse of
`extractAccountInfoFromTable` (only the first comma is removed, and
`parseFloat` stops at the next comma). -/
def balanceFromText (s : String) : Option ℚ :=
  match scanFirst amountCaptureAt s.toList with
  | none => none
  | some cap => parseFloatPrefix (removeFirstComma cap)

/-! ## Data model (document-processor.ts, base-parser.ts) -/

structure BBox where
  x1 : ℚ
  y1 : ℚ
  x2 : ℚ
  y2 : ℚ
deriving DecidableEq

structure TextBlock where
  text : String
  boundingBox : BBox
deriving DecidableEq

structure ProcessedTable where
  tableIndex : ℕ
  headerCells : List String
  rowCount : ℕ
deriving DecidableEq

/-- A processed page (the `textBlocks`/`tables` data a `ProcessedPage`
carries; the per-page template cache is modelled separately for the
`DocumentProcessor` state machine). -/
structure Page where
  textBlocks : List TextBlock
  tables : List ProcessedTable
deriving DecidableEq

/-- A loaded OCR document: its processed pages in order. -/
structure Document where
  pages : List Page
deriving DecidableEq

/-- `DocumentProcessor.getPageCount`. -/
def getPageCount (doc : Document) : ℕ := doc.pages.length

/-- `DocumentProcessor.processPage`: bounds-checked page access (page
numbers are 1-based; out-of-range returns `null`). -/
def processPage (doc : Document) (n : ℕ) : Option Page :=
  if n = 0 then none else doc.pages.get? (n - 1)

inductive TxType
  | DEPOSIT
  | WITHDRAWAL
  | OTHER
  | ATM_DEBIT
deriving DecidableEq

structure Transaction where
  date : Option String
  description : Option String
  amount : Option ℚ
  type : TxType
  rawRowText : String
deriving DecidableEq

structure TxLists where
  deposits : List Transaction
  atmDebit : List Transaction
  withdrawals : List Transaction
  checks : List Transaction
  fees : List Transaction
  other : List Transaction
deriving DecidableEq

def emptyTx : TxLists := ⟨[], [], [], [], [], []⟩

/-- Account metadata; a JavaScript field that was never assigned is `none`. -/
structure AccountMetadata where
  beginningBalance : Option ℚ
  endingBalance : Option ℚ
  depositsTotal : Option ℚ
  atmDebitTotal : Option ℚ
  checksTotal : Option ℚ
  serviceFees : Option ℚ
  otherSubtractions : Option ℚ
deriving DecidableEq

def emptyMeta : AccountMetadata := ⟨none, none, none, none, none, none, none⟩

structure Account where
  accountNumberLast4 : String
  accountType : Option String
  pageReference : Option ℕ
  allTransactions : TxLists
  metadata : AccountMetadata
deriving DecidableEq

structure ProcessedStatementData where
  bankName : Option String
  accounts : List Account
  statementPeriodStartDate : Option String
  statementPeriodEndDate : Option String
  rawText : String
  totalBalance : Option ℚ
deriving DecidableEq

/-- `BankStatementParser.createBaseData`. -/
def createBaseData (bankName : String) (rawText : String) : ProcessedStatementData :=
  ⟨some bankName, [], none, none, rawText, none⟩

/-! ## Geometry: sorting and greedy row clustering -/

/-- Vertical center of a block: `(boundingBox.y1 + boundingBox.y2) / 2`. -/
def cY (b : TextBlock) : ℚ := (b.boundingBox.y1 + b.boundingBox.y2) / 2

/-- Horizontal center of a block. -/
def cX (b : TextBlock) : ℚ := (b.boundingBox.x1 + b.boundingBox.x2) / 2

/-- `blocks.sort((a, b) => centerY(a) - centerY(b))` — a stable sort by
vertical center. -/
def sortByCenterY (bs : List TextBlock) : List TextBlock :=
  List.insertionSort (fun a b => cY a ≤ cY b) bs

/-- `rowGroup.sort((a, b) => centerX(a) - centerX(b))`. -/
def sortByCenterX (bs : List TextBlock) : List TextBlock :=
  List.insertionSort (fun a b => cX a ≤ cX b) bs

/-- Extract a row's cell texts in left-to-right order. -/
def rowCells (g : List TextBlock) : List String :=
  (sortByCenterX g).map (fun b => b.text)

/-- `row.join(' ')`. -/
def joinSpace (l : List String) : String := String.intercalate " " l

/-- The single-pass greedy clustering loop shared by both table
reconstructors: a new row starts when the current block's vertical center
exceeds the previous one's by more than `0.02`. -/
def clusterLoop : List TextBlock → List TextBlock → ℚ → List (List TextBlock)
  | [], cur, _ => if cur.isEmpty then [] else [cur]
  | b :: rest, cur, lastY =>
    if 0 ≤ lastY ∧ 1/50 < cY b - lastY then
      if cur.isEmpty then clusterLoop rest [b] (cY b)
      else cur :: clusterLoop rest [b] (cY b)
    else clusterLoop rest (cur ++ [b]) (cY b)

/-- Group vertically sorted blocks into rows (`lastY` starts at `-1`). -/
def clusterRows (bs : List TextBlock) : List (List TextBlock) :=
  clusterLoop bs [] (-1)

/-- Average of the vertical centers of a row's blocks. -/
def rowAvgCenterY (g : List TextBlock) : ℚ :=
  (g.map cY).sum / (g.length : ℚ)

/-- Average top edge of a row's blocks. -/
def rowAvgY1 (g : List TextBlock) : ℚ :=
  (g.map (fun b => b.boundingBox.y1)).sum / (g.length : ℚ)

/-- Average bottom edge of a row's blocks. -/
def rowAvgY2 (g : List TextBlock) : ℚ :=
  (g.map (fun b => b.boundingBox.y2)).sum / (g.length : ℚ)

/-! ## Table reconstruction (extractFullTableData and the transaction
variant) -/

inductive BoundaryMode
  | inclusive
  | exclusive
deriving DecidableEq

structure BoundaryOptions where
  topBoundaryMode : Option BoundaryMode
  bottomBoundaryMode : Option BoundaryMode
  includeAnchors : Option Bool

structure BoundingConstraints where
  topAnchor : Option String
  bottomAnchor : Option String
  y1 : Option ℚ
  y2 : Option ℚ

structure TableData where
  headers : List String
  rows : List (List String)
deriving DecidableEq

/-- The vertical-bounds filter condition shared verbatim by both
reconstruction variants (`topCondition && bottomCondition`): an undefined
bound is no constraint; `inclusive` uses `≥`/`≤`, `exclusive` uses `>`/`<`. -/
def boundsCond (topMode bottomMode : BoundaryMode) (y1 y2 : Option ℚ) (c : ℚ) : Bool :=
  (match y1 with
   | none => true
   | some t =>
     match topMode with
     | BoundaryMode.inclusive => decide (c ≥ t)
     | BoundaryMode.exclusive => decide (c > t)) &&
  (match y2 with
   | none => true
   | some b =>
     match bottomMode with
     | BoundaryMode.inclusive => decide (c ≤ b)
     | BoundaryMode.exclusive => decide (c < b))

/-- `extractFullTableData` (bank-of-america-parser.ts, lines 426-562): the
generic table reconstruction.  Anchors are resolved block-wise and
case-sensitively; an unresolved anchor leaves the corresponding bound as
passed in.  Blocks are filtered first, then sorted, clustered into rows, and
rows with fewer than two blocks are dropped. -/
def extractFullTableData (page : Page) (tbl : ProcessedTable)
    (bc : BoundingConstraints) (opts : BoundaryOptions) : Option TableData :=
  let topMode := opts.topBoundaryMode.getD BoundaryMode.inclusive
  let bottomMode := opts.bottomBoundaryMode.getD BoundaryMode.inclusive
  let includeAnchors := opts.includeAnchors.getD false
  let y1 : Option ℚ :=
    match bc.topAnchor with
    | some a =>
      match page.textBlocks.find? (fun b => strIncludes b.text a) with
      | some blk => some (if includeAnchors then blk.boundingBox.y1 else blk.boundingBox.y2)
      | none => bc.y1
    | none => bc.y1
  let y2 : Option ℚ :=
    match bc.bottomAnchor with
    | some a =>
      match page.textBlocks.find? (fun b => strIncludes b.text a) with
      | some blk => some (if includeAnchors then blk.boundingBox.y2 else blk.boundingBox.y1)
      | none => bc.y2
    | none => bc.y2
  let filteredBlocks :=
    if y1.isSome || y2.isSome then
      page.textBlocks.filter (fun b => boundsCond topMode bottomMode y1 y2 (cY b))
    else page.textBlocks
  let groups := clusterRows (sortByCenterY filteredBlocks)
  some ⟨tbl.headerCells,
    groups.filterMap (fun g => if g.length < 2 then none else some (rowCells g))⟩

/-- Combined keyword count of the anchor row and the following row over
`{date, description, transaction description, amount}` (each keyword can
count twice, once per row). -/
def headerKwCount (cur next : String) : ℕ :=
  (["date", "description", "transaction description", "amount"].map (fun k =>
    (if strIncludes next k then 1 else 0) + (if strIncludes cur k then 1 else 0))).sum

/-- Top-anchor row search of the transaction variant: the first row whose
space-joined text contains the anchor case-insensitively AND whose following
row passes the header-keyword check (`matchCount >= 3`); other occurrences
are skipped and the scan continues. -/
def findTopAnchorRowGo (a : String) : ℕ → List (List String) → Option ℕ
  | _, [] => none
  | i, r :: rest =>
    let rowText := joinSpace r
    if strIncludesCI rowText a then
      match rest with
      | [] => findTopAnchorRowGo a (i + 1) rest
      | nr :: _ =>
        if 3 ≤ headerKwCount (lowerStr rowText) (lowerStr (joinSpace nr)) then some i
        else findTopAnchorRowGo a (i + 1) rest
    else findTopAnchorRowGo a (i + 1) rest

/-- Bottom-anchor row search of the transaction variant (case-sensitive,
first occurrence). -/
def findBottomAnchorRowGo (a : String) : ℕ → List (List String) → Option ℕ
  | _, [] => none
  | i, r :: rest =>
    if strIncludes (joinSpace r) a then some i
    else findBottomAnchorRowGo a (i + 1) rest

/-- `extractFullTableDataForTransactions` (bank-of-america-parser.ts, lines
568-810).  All blocks are sorted and clustered first; anchors are resolved
against the rows' joined text; a missing anchor returns `null`.  The top
boundary is computed from `rowGroups[anchorRowIndex - 1]` exactly as in the
source (when the anchor sits in row 0 the negative index raises a TypeError
that the surrounding catch converts to `null`, modelled by the `i = 0`
branch). -/
def extractFullTableDataForTransactions (page : Page) (tbl : ProcessedTable)
    (bc : BoundingConstraints) (opts : BoundaryOptions) : Option TableData :=
  let topMode := opts.topBoundaryMode.getD BoundaryMode.inclusive
  let bottomMode := opts.bottomBoundaryMode.getD BoundaryMode.inclusive
  let includeAnchors := opts.includeAnchors.getD false
  let rowGroups := clusterRows (sortByCenterY page.textBlocks)
  let tempRows := rowGroups.map (fun g => g.map (fun b => b.text))
  let y1res : Option (Option ℚ) :=
    match bc.topAnchor with
    | none => some bc.y1
    | some a =>
      match findTopAnchorRowGo a 0 tempRows with
      | none => none
      | some i =>
        if i = 0 then none
        else
          match rowGroups.get? (i - 1) with
          | none => none
          | some g => some (some (if includeAnchors then rowAvgY1 g else rowAvgY2 g))
  match y1res with
  | none => none
  | some y1 =>
    let y2res : Option (Option ℚ) :=
      match bc.bottomAnchor with
      | none => some bc.y2
      | some a =>
        match findBottomAnchorRowGo a 0 tempRows with
        | none => none
        | some i =>
          match rowGroups.get? i with
          | none => none
          | some g => some (some (if includeAnchors then rowAvgY2 g else rowAvgY1 g))
    match y2res with
    | none => none
    | some y2 =>
      let filtered :=
        if y1.isSome || y2.isSome then
          rowGroups.filter (fun g => boundsCond topMode bottomMode y1 y2 (rowAvgCenterY g))
        else rowGroups
      some ⟨tbl.headerCells,
        filtered.filterMap (fun g => if g.length < 1 then none else some (rowCells g))⟩

/-! ## Transaction extraction from rows -/

/-- `extractTransactionFromRow` (bank-of-america-parser.ts, lines
1441-1510): date from the first cell, amount from the last cell with a
fallback scan over all cells, the remaining cells joined as the description;
the amount of a WITHDRAWAL or ATM_DEBIT row is forced to `-|amount|`. -/
def extractTransactionFromRow (row : List String) (ty : TxType) : Transaction :=
  let rowText := joinSpace row
  let dateVal : Option String :=
    match row.head? with
    | some c0 => dateMatch8 c0
    | none => none
  let amountVal : Option ℚ :=
    if 1 < row.length then
      match extractAmount ((row.getLast?).getD "") with
      | some a => some a
      | none => row.findSome? extractAmount
    else none
  let descVal : Option String :=
    if 2 < row.length then
      let startIdx := if dateVal.isSome then 1 else 0
      let endIdx := row.length - (if amountVal.isSome then 1 else 0)
      some (jsTrim (joinSpace ((row.drop startIdx).take (endIdx - startIdx))))
    else if row.length = 2 then
      if dateVal.isSome && amountVal.isSome then some ""
      else if dateVal.isSome then (row.get? 1)
      else if amountVal.isSome then (row.get? 0)
      else some rowText
    else none
  let amountSigned : Option ℚ :=
    if ty = TxType.WITHDRAWAL ∨ ty = TxType.ATM_DEBIT then
      amountVal.map (fun a => -|a|)
    else amountVal
  ⟨dateVal, descVal, amountSigned, ty, rowText⟩

/-- `isHeaderRow` (lines 1536-1568): returns `(isHeader, isTransaction)`.
The header term list contains the capitalised `"Transaction description"`
verbatim, which never matches the lowercased row text — embedded as in the
source. -/
def isHeaderRow (row : List String) : Bool × Bool :=
  let headerTerms := ["date", "description", "amount", "balance", "Transaction description"]
  let rowText := lowerStr (joinSpace row)
  let hasDate := row.any (fun c => looseDateTest (jsTrim c))
  let hasAmount := row.any (fun c =>
    anchoredAmountTest (jsTrim c) || amountShapeTest (jsTrim c))
  let isTransaction := hasDate && hasAmount
  let headerCount := (headerTerms.map (fun t => if strIncludes rowText t then 1 else 0)).sum
  let isHeader := 2 ≤ headerCount
  if isTransaction then (false, true) else (decide isHeader, isTransaction)

/-- JavaScript truthiness of `transaction.amount`: `null` and `0` are falsy
(`NaN` cannot arise over `ℚ`). -/
def truthyAmount (o : Option ℚ) : Bool :=
  match o with
  | some a => decide (a ≠ 0)
  | none => false

/-- `findClosestTextInPage`: the first option that occurs (case-insensitively)
in some block of the page. -/
def findClosestTextInPage (page : Page) (options : List String) : Option String :=
  options.findSome? (fun opt =>
    if page.textBlocks.any (fun b => strIncludesCI b.text opt) then some opt else none)

/-- `estimateTablePosition`: average vertical center of the blocks containing
some header-cell text, defaulting to mid-page. -/
def estimateTablePosition (page : Page) (tbl : ProcessedTable) : ℚ :=
  let headerTexts := tbl.headerCells.map lowerStr
  let acc := page.textBlocks.foldl
    (fun (acc : ℚ × ℕ) b =>
      if headerTexts.any (fun h => strIncludes (lowerStr b.text) h) then
        (acc.1 + cY b, acc.2 + 1)
      else acc)
    (0, 0)
  if acc.2 > 0 then acc.1 / (acc.2 : ℚ) else 1/2

/-- `findTableNearAnchor`: the table whose estimated position is closest to
the anchor block (first table on ties, first table when the anchor is not
found, `undefined` on an empty table list). -/
def findTableNearAnchor (page : Page) (tables : List ProcessedTable)
    (anchorText : String) : Option ProcessedTable :=
  match tables with
  | [] => none
  | t0 :: _ =>
    match page.textBlocks.find? (fun b => strIncludesCI b.text anchorText) with
    | none => some t0
    | some ab =>
      let aY := cY ab
      some (tables.foldl
        (fun (best : ProcessedTable × ℚ) t =>
          let d := |estimateTablePosition page t - aY|
          if d < best.2 then (t, d) else best)
        (t0, (9007199254740991 : ℚ))).1

/-- `isEndOfAccountSection`: a block matches the account-number pattern but
does not contain this account's last-4 string. -/
def isEndOfAccountSection (page : Page) (acct : Account) : Bool :=
  page.textBlocks.any (fun b =>
    accountRefTest b.text && !(strIncludes b.text acct.accountNumberLast4))

/-- Shared table filter of the three transaction-table processors: header
cells jointly mention date, description and amount. -/
def isDateDescAmountTable (t : ProcessedTable) : Bool :=
  let h := lowerStr (joinSpace t.headerCells)
  strIncludes h "date" && strIncludes h "description" && strIncludes h "amount"

/-- Row conversion of `processDepositsTable` (lines 1217-1245): only rows
classified as transactions are kept; cells mentioning date/description/amount
are filtered out first; the push is guarded by the truthiness of the
amount. -/
def depositRowToTx (row : List String) : Option Transaction :=
  if row.length < 2 then none
  else
    let rc := isHeaderRow row
    if rc.1 && !rc.2 then none
    else if rc.2 then
      let transactionData := row.filter (fun cell =>
        let cl := lowerStr cell
        !(strIncludes cl "date" || strIncludes cl "description" || strIncludes cl "amount"))
      let t := extractTransactionFromRow transactionData TxType.DEPOSIT
      if truthyAmount t.amount then some t else none
    else none

/-- `processDepositsTable` (lines 1167-1256). -/
def processDepositsTable (page : Page) (_acct : Account) : List Transaction :=
  let topA := findClosestTextInPage page
    ["Deposits and other additions", "Deposits and other additions - continued"]
  let botA := findClosestTextInPage page
    ["Total deposits and other additions", "continued on the next page"]
  let depositTables := page.tables.filter isDateDescAmountTable
  match depositTables, topA with
  | _ :: _, some ta =>
    (match findTableNearAnchor page depositTables ta with
     | none => []
     | some tbl =>
       match extractFullTableDataForTransactions page tbl
           ⟨some ta, botA, none, none⟩
           ⟨some BoundaryMode.exclusive, some BoundaryMode.exclusive, some false⟩ with
       | some ftd => ftd.rows.filterMap depositRowToTx
       | none => [])
  | _, _ => []

/-- Row conversion of `processWithdrawalsTable` (lines 1317-1337): header
rows are skipped, every other row is converted, and the push is guarded by
the truthiness of the amount. -/
def withdrawalRowToTx (row : List String) : Option Transaction :=
  if row.length < 2 then none
  else
    let rc := isHeaderRow row
    if rc.1 && !rc.2 then none
    else
      let t := extractTransactionFromRow row TxType.WITHDRAWAL
      if truthyAmount t.amount then some t else none

/-- `processWithdrawalsTable` (lines 1261-1347). -/
def processWithdrawalsTable (page : Page) (_acct : Account) : List Transaction :=
  let topA := findClosestTextInPage page
    ["Other subtractions", "Service fees", "Withdrawals and other subtractions",
     "Withdrawals and other subtractions - continued"]
  let botA := findClosestTextInPage page
    ["continued on the next page", "Total other subtractions", "Total service fees",
     "Total withdrawals and other subtractions"]
  let withdrawalTables := page.tables.filter isDateDescAmountTable
  match withdrawalTables, topA with
  | _ :: _, some ta =>
    (match findTableNearAnchor page withdrawalTables ta with
     | none => []
     | some tbl =>
       match extractFullTableDataForTransactions page tbl
           ⟨some ta, botA, none, none⟩
           ⟨some BoundaryMode.exclusive, some BoundaryMode.exclusive, some false⟩ with
       | some ftd => ftd.rows.filterMap withdrawalRowToTx
       | none => [])
  | _, _ => []

/-- Row conversion of `processAtmDebitTable` (lines 1401-1426). -/
def atmDebitRowToTx (row : List String) : Option Transaction :=
  if row.length < 2 then none
  else
    let rc := isHeaderRow row
    if rc.1 && !rc.2 then none
    else
      let t := extractTransactionFromRow row TxType.ATM_DEBIT
      if truthyAmount t.amount then some t else none

/-- `processAtmDebitTable` (lines 1352-1436). -/
def processAtmDebitTable (page : Page) (_acct : Account) : List Transaction :=
  let topA := findClosestTextInPage page
    ["ATM and debit card subtractions", "ATM and debit card subtractions - continued"]
  let botA := findClosestTextInPage page
    ["Total ATM and debit card subtractions", "continued on the next page"]
  let atmTables := page.tables.filter isDateDescAmountTable
  match atmTables, topA with
  | _ :: _, some ta =>
    (match findTableNearAnchor page atmTables ta with
     | none => []
     | some tbl =>
       match extractFullTableDataForTransactions page tbl
           ⟨some ta, botA, none, none⟩
           ⟨some BoundaryMode.exclusive, some BoundaryMode.exclusive, some false⟩ with
       | some ftd => ftd.rows.filterMap atmDebitRowToTx
       | none => [])
  | _, _ => []

/-! ## Account summary (key-value regex extraction) -/

/-- The separator `(?:[\s\n\r]*[:=]?[\s\n\r]*|[^a-zA-Z0-9]*|[\s\n\r]*-[\s\n\r]*)`
followed by `[\$]?([\d,]+\.\d{2})` with `parseFloat` on the comma-free
capture.  The three alternatives are tried in regex order, each with the
full continuation. -/
def sepThenAmount (s : List Char) : Option ℚ :=
  let amt := fun (t : List Char) =>
    let t1 := match t with | '$' :: u => u | _ => t
    (amountCore t1).map (fun r => ratFromCapture r.1 r.2.1 r.2.2)
  (amt (wsStar (optChar [':', '='] (wsStar s)))) <|>
    (amt (s.dropWhile (fun c => !c.isAlphanum))) <|>
    (match wsStar s with
     | '-' :: u => amt (wsStar u)
     | _ => none)

/-- One attempt of a `(phrase₁|phrase₂|…)(?:sep)[\$]?([\d,]+\.\d{2})`
key-value regex at a position (the row text is already lowercased). -/
def keyValueAt (phrases : List (List (List Char))) (s : List Char) : Option ℚ :=
  phrases.findSome? (fun ph =>
    matchPhraseThen ph s)
where
  matchPhraseThen : List (List Char) → List Char → Option ℚ
    | [], s => sepThenAmount s
    | w :: rest, s =>
      match dropLit w s with
      | none => none
      | some s1 =>
        match rest with
        | [] => sepThenAmount s1
        | _ :: _ =>
          match wsPlus s1 with
          | none => none
          | some s2 => matchPhraseThen rest s2

/-- Leftmost match of a key-value regex over the lowercased row text. -/
def keyValueAmount (phrases : List (List String)) (rowText : String) : Option ℚ :=
  scanFirst (keyValueAt (phrases.map (fun ph => ph.map (fun w => w.toList)))) rowText.toList

/-- The seven summary values tracked by `extractAccountSummaryInfo`. -/
structure SummaryVals where
  beginningBalance : Option ℚ
  endingBalance : Option ℚ
  depositsTotal : Option ℚ
  atmDebitTotal : Option ℚ
  checksTotal : Option ℚ
  serviceFees : Option ℚ
  otherSubtractions : Option ℚ

/-- One row of the `extractAccountSummaryInfo` loop: the key-value regexes
are tried in source order (each match `continue`s), with the legacy
`includes`-based fallback for the two balances. -/
def summaryRowStep (st : SummaryVals) (row : List String) : SummaryVals :=
  let rowText := lowerStr (joinSpace row)
  match keyValueAmount [["beginning", "balance"], ["opening", "balance"]] rowText with
  | some v => { st with beginningBalance := some v }
  | none =>
  match keyValueAmount [["ending", "balance"], ["closing", "balance"]] rowText with
  | some v => { st with endingBalance := some v }
  | none =>
  match keyValueAmount [["deposits", "and", "other", "additions"], ["total", "deposits"]] rowText with
  | some v => { st with depositsTotal := some v }
  | none =>
  match keyValueAmount [["atm", "and", "debit", "card", "transactions"],
      ["atm", "and", "debit", "card", "subtractions"],
      ["atm", "and", "debit", "card", "withdrawals"]] rowText with
  | some v => { st with atmDebitTotal := some v }
  | none =>
  match keyValueAmount [["checks", "paid"], ["checks"], ["total", "checks"]] rowText with
  | some v => { st with checksTotal := some v }
  | none =>
  match keyValueAmount [["service", "fees"], ["total", "fees"]] rowText with
  | some v => { st with serviceFees := some v }
  | none =>
  match keyValueAmount [["other", "subtractions"], ["other", "withdrawals"]] rowText with
  | some v => { st with otherSubtractions := some v }
  | none =>
  let st1 :=
    if st.beginningBalance = none && strIncludes rowText "beginning balance" then
      { st with beginningBalance := extractAmount rowText }
    else st
  if st1.endingBalance = none && strIncludes rowText "ending balance" then
    { st1 with endingBalance := extractAmount rowText }
  else st1

/-- `extractAccountSummaryInfo` (lines 949-1053): scans the reconstructed
rows and stores every found value into the account's metadata (a found value
overwrites, a missing one keeps the previous metadata entry). -/
def extractAccountSummaryInfo (rows : List (List String)) (acct : Account) : Account :=
  let st := rows.foldl summaryRowStep ⟨none, none, none, none, none, none, none⟩
  { acct with metadata :=
    { beginningBalance := st.beginningBalance <|> acct.metadata.beginningBalance
      endingBalance := st.endingBalance <|> acct.metadata.endingBalance
      depositsTotal := st.depositsTotal <|> acct.metadata.depositsTotal
      atmDebitTotal := st.atmDebitTotal <|> acct.metadata.atmDebitTotal
      checksTotal := st.checksTotal <|> acct.metadata.checksTotal
      serviceFees := st.serviceFees <|> acct.metadata.serviceFees
      otherSubtractions := st.otherSubtractions <|> acct.metadata.otherSubtractions } }

/-- `processAccountSummaryTable` (lines 896-944), Account branch: find a
summary-looking table, reconstruct it between the "Account summary" /
"Ending balance on" anchors and fold the rows into the account metadata. -/
def processAccountSummaryTable (page : Page) (acct : Account) : Account :=
  let summaryTables := page.tables.filter (fun t =>
    let h := lowerStr (joinSpace t.headerCells)
    strIncludes h "beginning balance" || strIncludes h "deposits" || strIncludes h "withdrawals")
  match summaryTables with
  | [] => acct
  | tbl :: _ =>
    match extractFullTableData page tbl
        ⟨some "Account summary", some "Ending balance on", none, none⟩
        ⟨some BoundaryMode.inclusive, some BoundaryMode.exclusive, some true⟩ with
    | some ftd => extractAccountSummaryInfo ftd.rows acct
    | none => acct

/-! ## Transaction tables across an account's page range -/

/-- The page loop of `processTransactionTables` (lines 1075-1119): per page,
collect deposits, ATM/debit and withdrawals, stopping early when a different
account's number appears on a page after the first. -/
def collectTxGo (doc : Document) (acct : Account) (startPage : ℕ) :
    ℕ → ℕ → List Transaction → List Transaction → List Transaction →
    List Transaction × List Transaction × List Transaction
  | _, 0, ds, ws, ad => (ds, ws, ad)
  | p, rem + 1, ds, ws, ad =>
    match processPage doc p with
    | none => collectTxGo doc acct startPage (p + 1) rem ds ws ad
    | some page =>
      let ds2 := ds ++ processDepositsTable page acct
      let ad2 := ad ++ processAtmDebitTable page acct
      let ws2 := ws ++ processWithdrawalsTable page acct
      if isEndOfAccountSection page acct && decide (startPage < p) then (ds2, ws2, ad2)
      else collectTxGo doc acct startPage (p + 1) rem ds2 ws2 ad2

/-- `processTransactionTables` (lines 1058-1162): run the page loop and
append the collected transactions to the account's category lists. -/
def processTransactionTables (doc : Document) (startPage endPage : ℕ)
    (acct : Account) : Account :=
  let c := collectTxGo doc acct startPage startPage (endPage + 1 - startPage) [] [] []
  { acct with allTransactions :=
    { acct.allTransactions with
      deposits := acct.allTransactions.deposits ++ c.1
      withdrawals := acct.allTransactions.withdrawals ++ c.2.1
      atmDebit := acct.allTransactions.atmDebit ++ c.2.2 } }

/-- `processAccountStatement` (lines 865-891): an unset/zero end page falls
back to the page count; the first page's Account Summary table is processed,
then the transaction tables over the whole range. -/
def applyAccountStatement (doc : Document) (acct : Account)
    (startPage endPageRaw : ℕ) : Account :=
  let endPage := if endPageRaw = 0 then getPageCount doc else endPageRaw
  match processPage doc startPage with
  | none => acct
  | some fp =>
    let a1 := processAccountSummaryTable fp acct
    processTransactionTables doc startPage endPage a1

/-! ## Account detail page ranges -/

/-- `acc.pageReference || 0`: the JavaScript sort key. -/
def pageRefKey (a : Account) : ℕ := a.pageReference.getD 0

/-- The sort comparator of `processAccountDetailPages` on indexed accounts
(the index models JavaScript object identity; the sort is stable). -/
def refLE (x y : ℕ × Account) : Prop := pageRefKey x.2 ≤ pageRefKey y.2

instance : DecidableRel refLE :=
  fun x y => inferInstanceAs (Decidable (pageRefKey x.2 ≤ pageRefKey y.2))

instance : IsTotal (ℕ × Account) refLE := ⟨fun _ _ => Nat.le_total _ _⟩

instance : IsTrans (ℕ × Account) refLE := ⟨fun _ _ _ => Nat.le_trans⟩

/-- Stable sort by `pageReference` (JavaScript `Array.prototype.sort`). -/
def sortAccountsByRef (l : List (ℕ × Account)) : List (ℕ × Account) :=
  List.insertionSort refLE l

/-- The range loop of `processAccountDetailPages` (lines 833-858): an
account with a falsy `pageReference` is skipped; the end page is one before
the next sorted account's `pageReference` (page count when that is falsy),
and the page count for the last account. -/
def rangesLoop (N : ℕ) : List (ℕ × Account) → List (ℕ × ℕ × ℕ)
  | [] => []
  | (i, a) :: rest =>
    let tail := rangesLoop N rest
    if pageRefKey a = 0 then tail
    else
      let e :=
        match rest with
        | [] => N
        | (_, b) :: _ => (if pageRefKey b = 0 then N else pageRefKey b) - 1
      (i, pageRefKey a, e) :: tail

/-- Page ranges per account index: filter accounts with a defined
`pageReference`, sort by it, and run the range loop. -/
def detailRangesIdx (accs : List Account) (N : ℕ) : List (ℕ × ℕ × ℕ) :=
  rangesLoop N (sortAccountsByRef ((accs.enum).filter (fun p => p.2.pageReference ≠ none)))

/-- The `(startPage, endPage)` ranges computed by
`processAccountDetailPages`, in processing order. -/
def detailRanges (accs : List Account) (N : ℕ) : List (ℕ × ℕ) :=
  (detailRangesIdx accs N).map (fun t => t.2)

/-- `processAccountDetailPages` (lines 815-859): each account with a range
is processed over it (mutation of the shared account objects is modelled by
updating the account at its original index). -/
def processAccountDetailPages (doc : Document)
    (data : ProcessedStatementData) : ProcessedStatementData :=
  let ranges := detailRangesIdx data.accounts (getPageCount doc)
  { data with accounts := (data.accounts.enum).map (fun p =>
      match ranges.find? (fun t => t.1 == p.1) with
      | some t => applyAccountStatement doc p.2 t.2.1 t.2.2
      | none => p.2) }

/-! ## Statement period extraction -/

def monthNames : List String :=
  ["January", "February", "March", "April", "May", "June", "July",
   "August", "September", "October", "November", "December"]

/-- Case-insensitive month-name alternation, returning the matched original
characters and the rest. -/
def monthAt (s : List Char) : Option (List Char × List Char) :=
  monthNames.findSome? (fun m => dropLitCI m.toList s)

/-- Regex `\d{1,2}` (greedy; the continuation always starts with a
non-digit, so backtracking to one digit can never succeed where two digits
failed). -/
def digits12 (s : List Char) : Option (List Char × List Char) :=
  match s with
  | a :: b :: r =>
    if a.isDigit then
      (if b.isDigit then some ([a, b], r) else some ([a], b :: r))
    else none
  | [a] => if a.isDigit then some ([a], []) else none
  | [] => none

/-- Regex `(?:,|)?\s+`: a comma is consumed greedily and retried without it
when the whitespace fails. -/
def commaOptWs (s : List Char) : Option (List Char) :=
  match s with
  | ',' :: t =>
    (match wsPlus t with
     | some r => some r
     | none => wsPlus s)
  | _ => wsPlus s

/-- Regex `(?:to|through|-)\s+` with ordered alternation. -/
def connectThen (s : List Char) : Option (List Char) :=
  ((dropLitCI "to".toList s).bind (fun r => wsPlus r.2)) <|>
    ((dropLitCI "through".toList s).bind (fun r => wsPlus r.2)) <|>
    (match s with
     | '-' :: t => wsPlus t
     | _ => none)

/-- One attempt of the statement-period regex of `extractStatementPeriod`
(line 1664) at a position, returning the two formatted date strings
`"Month D, YYYY"` built from the capture groups. -/
def monthPeriodAt (s : List Char) : Option (String × String) :=
  (monthAt s).bind fun m1 =>
  (wsPlus m1.2).bind fun r2 =>
  (digits12 r2).bind fun d1 =>
  (commaOptWs d1.2).bind fun r4 =>
  (digits4Take r4).bind fun y1 =>
  (wsPlus y1.2).bind fun r6 =>
  (connectThen r6).bind fun r7 =>
  (monthAt r7).bind fun m2 =>
  (wsPlus m2.2).bind fun r9 =>
  (digits12 r9).bind fun d2 =>
  (commaOptWs d2.2).bind fun r11 =>
  (digits4Take r11).map fun y2 =>
  (String.mk m1.1 ++ " " ++ String.mk d1.1 ++ ", " ++ String.mk y1.1,
   String.mk m2.1 ++ " " ++ String.mk d2.1 ++ ", " ++ String.mk y2.1)

/-- Leftmost match of the statement-period regex. -/
def monthPeriodMatch (s : String) : Option (String × String) :=
  scanFirst monthPeriodAt s.toList

/-- Regex `\d{2,4}` (greedy: two to four digits; the continuation in the
date pattern is the end of the regex, so maximal munch is exact). -/
def digits24Take (s : List Char) : Option (List Char × List Char) :=
  let d := (s.take 4).takeWhile Char.isDigit
  if 2 ≤ d.length then some (d, s.drop d.length) else none

/-- Regex `\s+`, returning both the matched whitespace and the rest (the
patterns that follow `\s+` here never start with whitespace, so maximal
munch is exact). -/
def wsPlusTake (s : List Char) : Option (List Char × List Char) :=
  let w := s.takeWhile jsWs
  if w.isEmpty then none else some (w, s.drop w.length)

/-- One attempt of the template date pattern `(\d{1,2}\/\d{1,2}\/\d{2,4})`
(extraction-templates.ts line 14; no `groupIndex`, so the value is the full
match) at a position, returning the matched text; backtracking a greedy
`\d{1,2}` from two digits to one leaves a digit where `\/` is required, so
maximal munch is exact. -/
def dateSlashedAt (s : List Char) : Option (List Char) :=
  (digits12 s).bind fun a =>
  (match a.2 with
   | '/' :: r2 =>
     (digits12 r2).bind fun b =>
     (match b.2 with
      | '/' :: r4 =>
        (digits24Take r4).map fun y => a.1 ++ '/' :: b.1 ++ '/' :: y.1
      | _ => none)
   | _ => none)

/-- Leftmost match of the template's slashed-date pattern. -/
def dateSlashed (s : String) : Option String :=
  (scanFirst dateSlashedAt s.toList).map String.mk

/-- One attempt of the template month-name date pattern
`(January|...|December)\s+\d{1,2},?\s+\d{4}` (extraction-templates.ts line
18, flags `gi`) at a position, returning the matched text. Backtracking the
optional comma cannot help: when the comma is present but the following
`\s+` fails, retrying without the comma makes `\s+` fail on the comma
itself. -/
def monthNameDateAt (s : List Char) : Option (List Char) :=
  (monthAt s).bind fun m =>
  (wsPlusTake m.2).bind fun w1 =>
  (digits12 w1.2).bind fun d =>
  (let cr : List Char × List Char :=
    match d.2 with
    | ',' :: r => ([','], r)
    | r => ([], r)
   (wsPlusTake cr.2).bind fun w2 =>
   (digits4Take w2.2).map fun y =>
   m.1 ++ w1.1 ++ d.1 ++ cr.1 ++ w2.1 ++ y.1)

/-- Leftmost match of the template's month-name date pattern. -/
def monthNameDate (s : String) : Option String :=
  (scanFirst monthNameDateAt s.toList).map String.mk

/-- Regex `(?:to|-|through)` under `/i` (the template's connector, with its
own alternation order), returning the matched original text; the
alternatives are pairwise non-overlapping at any position. -/
def connTake (s : List Char) : Option (List Char × List Char) :=
  (dropLitCI "to".toList s) <|>
    (match s with
     | '-' :: t => some (['-'], t)
     | _ => none) <|>
    (dropLitCI "through".toList s)

/-- One attempt of the template statement-period pattern
`(January|...)\s+(\d{1,2}),\s+(\d{4})\s*(?:to|-|through)\s*(January|...)\s+(\d{1,2}),\s+(\d{4})`
(extraction-templates.ts line 22, flag `i`: mandatory comma after each day,
`\s*` around the connector) at a position, returning the full matched text;
releasing characters from a greedy `\s*` leaves whitespace where the
connector or a month name is required, so maximal munch is exact. -/
def periodRegexAt (s : List Char) : Option (List Char) :=
  (monthAt s).bind fun m1 =>
  (wsPlusTake m1.2).bind fun w1 =>
  (digits12 w1.2).bind fun d1 =>
  ((match d1.2 with
    | ',' :: r => some r
    | _ => none : Option (List Char))).bind fun r1 =>
  (wsPlusTake r1).bind fun w2 =>
  (digits4Take w2.2).bind fun y1 =>
  (let ws3 := y1.2.takeWhile jsWs
   (connTake (y1.2.drop ws3.length)).bind fun cn =>
   let ws4 := cn.2.takeWhile jsWs
   (monthAt (cn.2.drop ws4.length)).bind fun m2 =>
   (wsPlusTake m2.2).bind fun w5 =>
   (digits12 w5.2).bind fun d2 =>
   ((match d2.2 with
     | ',' :: r => some r
     | _ => none : Option (List Char))).bind fun r5 =>
   (wsPlusTake r5).bind fun w6 =>
   (digits4Take w6.2).map fun y2 =>
   m1.1 ++ w1.1 ++ d1.1 ++ ',' :: w2.1 ++ y1.1 ++ ws3 ++ cn.1 ++ ws4 ++
     m2.1 ++ w5.1 ++ d2.1 ++ ',' :: w6.1 ++ y2.1)

/-- Leftmost match of the template's statement-period pattern. -/
def periodRegexMatch (s : String) : Option String :=
  (scanFirst periodRegexAt s.toList).map String.mk

/-! ## Template extraction (DocumentProcessor.extractUsingTemplate) -/

/-- A template pattern: the regex together with its `groupIndex` selection is
modelled as an opaque matcher from a block's text to the extracted value. -/
structure TemplatePattern where
  ptype : String
  matcher : String → Option String

structure ExtractionTemplate where
  id : String
  patterns : List TemplatePattern

structure MatchRecord where
  value : String
  text : String
  position : BBox
deriving DecidableEq

/-- The per-type extraction results object. -/
abbrev TemplateResults := List (String × List MatchRecord)

/-- The pure extraction underlying `extractUsingTemplate` (part_004, lines
452-475): for every pattern, every matching block contributes a
`{value, text, position}` record. -/
def computeTemplateExtraction (page : Page) (t : ExtractionTemplate) : TemplateResults :=
  t.patterns.map (fun p =>
    (p.ptype, page.textBlocks.filterMap (fun b =>
      (p.matcher b.text).map (fun v => ⟨v, b.text, b.boundingBox⟩))))

/-- `dateExtractionTemplate` (src/src/lib/extraction-templates.ts, lines
10-26): id `common-dates` with three patterns in source order — the slashed
date `(\d{1,2}\/\d{1,2}\/\d{2,4})`, the month-name date, and the explicit
statement-period phrase. None carries a `groupIndex`, so each value is the
full match (`match[0]`, the first match also under the `g` flag). -/
def dateExtractionTemplate : ExtractionTemplate :=
  { id := "common-dates"
    patterns :=
      [{ ptype := "date-mm-dd-yyyy", matcher := dateSlashed },
       { ptype := "date-month-name", matcher := monthNameDate },
       { ptype := "statement-period", matcher := periodRegexMatch }] }

/-- `extractStatementPeriod` (lines 1661-1678): prefer the explicit period
phrase found in a statement-period result, falling back to the first two
generic date matches. -/
def extractStatementPeriod (dateData : TemplateResults)
    (data : ProcessedStatementData) : ProcessedStatementData :=
  match dateData.lookup "statement-period" with
  | some (m :: _) =>
    (match monthPeriodMatch m.text with
     | some p =>
       { data with statementPeriodStartDate := some p.1, statementPeriodEndDate := some p.2 }
     | none => data)
  | _ =>
    match dateData.lookup "date-mm-dd-yyyy" with
    | some (m1 :: m2 :: _) =>
      { data with statementPeriodStartDate := some m1.value,
                  statementPeriodEndDate := some m2.value }
    | _ => data

/-! ## First-page classification and account detection -/

/-- `isCombinedStatementPage` (lines 83-105). -/
def isCombinedStatementPage (page : Page) : Bool :=
  page.textBlocks.any (fun b => phraseTest ["your", "combined", "statement"] b.text) ||
    page.textBlocks.any (fun b => phraseTest ["combined", "statement"] b.text) ||
    page.textBlocks.any (fun b => phraseTest ["your", "deposit", "accounts"] b.text) ||
    decide (1 < page.textBlocks.countP (fun b => accountRefTest b.text))

/-- Per-block step of the `detectAccountsFromText` loop: the account-number
capture and the bank-specific account-type patterns (a later block
overwrites an earlier result). -/
def detectStep (st : String × Option String) (b : TextBlock) : String × Option String :=
  let n := match acctNumCapture b.text with
    | some c => c
    | none => st.1
  let ty := if phraseTest ["adv", "plus", "banking"] b.text then
      some "Advantage Plus Banking"
    else st.2
  (n, ty)

/-- `detectAccountsFromText` (lines 189-236): sweep every block; the account
is only recorded when both the number and the type were found. -/
def detectAccountsFromText (page : Page) : Option Account :=
  let st := page.textBlocks.foldl detectStep ("unknown", none)
  if decide (st.1 ≠ "unknown") && st.2.isSome then
    some ⟨st.1, st.2, none, emptyTx, emptyMeta⟩
  else none

/-- The default account pushed by `processNonCombinedStatementPage` when no
account was detected. -/
def defaultUnknownAccount : Account := ⟨"unknown", none, none, emptyTx, emptyMeta⟩

/-- `processNonCombinedStatementPage` (lines 147-184). -/
def processNonCombinedStatementPage (page : Page)
    (data : ProcessedStatementData) : ProcessedStatementData :=
  let dateData := computeTemplateExtraction page dateExtractionTemplate
  let d1 := extractStatementPeriod dateData data
  let accs1 :=
    match detectAccountsFromText page with
    | some a => d1.accounts ++ [a]
    | none => d1.accounts
  let accs2 := if accs1.isEmpty then [defaultUnknownAccount] else accs1
  let accs3 :=
    match accs2 with
    | [] => []
    | a :: t => { a with pageReference := some 1 } :: t
  { d1 with accounts := accs3 }

/-! ## Combined-statement summary table -/

/-- `findAccountSummaryTable` (lines 241-273): a table matching at least two
of the four header-keyword groups. -/
def findAccountSummaryTable (tables : List ProcessedTable) : Option ProcessedTable :=
  tables.find? (fun t =>
    let headers := t.headerCells.map lowerStr
    let a := headers.any (fun h =>
      strIncludes h "account" || strIncludes h "deposit" || strIncludes h "banking")
    let b := headers.any (fun h =>
      strIncludes h "number" || strIncludes h "account/plan" || strIncludes h "acct")
    let c := headers.any (fun h =>
      strIncludes h "balance" || strIncludes h "amount")
    let d := headers.any (fun h =>
      strIncludes h "page" || strIncludes h "details")
    decide (2 ≤ (if a then 1 else 0) + (if b then 1 else 0) +
      (if c then 1 else 0) + (if d then 1 else 0)))

/-- `row[idx]` guarded by `idx >= 0 && idx < row.length` (a `findIndex` miss
is `none`). -/
def cellAt (row : List String) (idx : Option ℕ) : Option String :=
  match idx with
  | some i => row.get? i
  | none => none

/-- `/\d{4}/.test(cell)`. -/
def fourConsecDigitsTest (s : String) : Bool := existsPos digits4Test s.toList

/-- One row of the `extractAccountInfoFromTable` loop (lines 310-417),
folding over `(accounts so far, total balance)`. -/
def accountRowStep (nameIdx numIdx balIdx pageIdx : Option ℕ)
    (st : List Account × ℚ) (row : List String) : List Account × ℚ :=
  if row.any (fun c => strIncludes (lowerStr c) "total") then
    match cellAt row balIdx with
    | some txt =>
      (match balanceFromText txt with
       | some v => (st.1, v)
       | none => st)
    | none => st
  else
    let headerKeywords := ["your deposit accounts", "account/plan number",
      "ending balance", "details on"]
    let containsHeaderInfo := row.any (fun c =>
      headerKeywords.any (fun k => strIncludes (lowerStr c) k))
    let containsAccountInfo := row.any (fun c =>
      fourConsecDigitsTest c || (c.toList.contains '*' && c.toList.any Char.isDigit))
    if containsHeaderInfo && !containsAccountInfo then st
    else
      let filteredRow :=
        if containsHeaderInfo && containsAccountInfo then
          (row.map (fun c =>
            if headerKeywords.any (fun k => lowerStr c = k || jsTrim (lowerStr c) = k) then ""
            else c)).filter (fun c => jsTrim c ≠ "")
        else row
      match cellAt filteredRow numIdx with
      | none => st
      | some accountNumber =>
        if accountNumber = "" then st
        else
          let last4 := String.mk (((accountNumber.toList.filter Char.isDigit).reverse.take 4).reverse)
          let balance := (cellAt filteredRow balIdx).bind balanceFromText
          let pageReference := (cellAt filteredRow pageIdx).bind pageRefMatch
          let accountName := cellAt filteredRow nameIdx
          (st.1 ++ [⟨last4, accountName, pageReference, emptyTx,
            { emptyMeta with endingBalance := balance }⟩], st.2)

/-- `extractAccountInfoFromTable` (lines 278-421): reconstruct the summary
table between the "Your deposit accounts" / "Total balance" anchors and
parse each surviving row into an account stub. -/
def extractAccountInfoFromTable (page : Page) (tbl : ProcessedTable)
    (data : ProcessedStatementData) : ProcessedStatementData :=
  match extractFullTableData page tbl
      ⟨some "Your deposit accounts", some "Total balance", none, none⟩
      ⟨some BoundaryMode.exclusive, some BoundaryMode.exclusive, some true⟩ with
  | none => data
  | some ftd =>
    if ftd.rows.isEmpty then data
    else
      let headers := tbl.headerCells.map lowerStr
      let accountNameIdx := headers.findIdx? (fun h =>
        strIncludes h "account" || strIncludes h "deposit" || strIncludes h "banking")
      let accountNumIdx := headers.findIdx? (fun h =>
        strIncludes h "number" || strIncludes h "account/plan" || strIncludes h "acct")
      let balanceIdx := headers.findIdx? (fun h =>
        strIncludes h "balance" || strIncludes h "amount")
      let pageRefIdx := headers.findIdx? (fun h =>
        strIncludes h "page" || strIncludes h "details")
      let st := ftd.rows.foldl
        (accountRowStep accountNameIdx accountNumIdx balanceIdx pageRefIdx) ([], 0)
      { data with accounts := st.1,
                  totalBalance := if 0 < st.2 then some st.2 else none }

/-- `processCombinedStatementPage` (lines 110-145). -/
def processCombinedStatementPage (page : Page)
    (data : ProcessedStatementData) : ProcessedStatementData :=
  let dateData := computeTemplateExtraction page dateExtractionTemplate
  let d1 := extractStatementPeriod dateData data
  if page.tables.isEmpty then d1
  else
    match findAccountSummaryTable page.tables with
    | some tbl => extractAccountInfoFromTable page tbl d1
    | none => d1

/-! ## The parser pipeline -/

/-- The `try` body of `BankOfAmericaStatementParser.process` (lines 41-77)
for a successfully loaded document: classify the first page, build the
account stubs, then process the account detail pages.  All caught
exceptions correspond to explicit total branches of the embedding. -/
def bofaProcess (doc : Document) (rawText : String) : ProcessedStatementData :=
  let baseData := createBaseData "Bank of America" rawText
  match processPage doc 1 with
  | none => baseData
  | some firstPage =>
    let d1 :=
      if isCombinedStatementPage firstPage then
        processCombinedStatementPage firstPage baseData
      else processNonCombinedStatementPage firstPage baseData
    processAccountDetailPages doc d1

/-- `process` at its boundary (lines 19-78): a failed document load
(`processDocument` returning `false`, e.g. the OCR service unavailable)
yields the base data; otherwise the loaded document is parsed. -/
def bofaProcessTop (loaded : Option Document) (rawText : String) :
    ProcessedStatementData :=
  match loaded with
  | none => createBaseData "Bank of America" rawText
  | some doc => bofaProcess doc rawText

/-! ## DocumentProcessor template memoisation (stateful) -/

/-- The mutable state of a `DocumentProcessor` relevant to template
extraction: the loaded document and the per-page `extractedData` maps,
flattened to a `(pageNumber, templateId)`-keyed association list. -/
structure DPState where
  doc : Document
  extracted : List ((ℕ × String) × TemplateResults)

/-- `extractUsingTemplate` (part_004, lines 432-481): resolve the page
(`null` when out of bounds), return the cached extraction when present,
otherwise compute, cache and return it. -/
def extractUsingTemplateS (s : DPState) (n : ℕ) (t : ExtractionTemplate) :
    Option TemplateResults × DPState :=
  match processPage s.doc n with
  | none => (none, s)
  | some page =>
    match s.extracted.lookup (n, t.id) with
    | some r => (some r, s)
    | none =>
      let r := computeTemplateExtraction page t
      (some r, ⟨s.doc, ((n, t.id), r) :: s.extracted⟩)

/-! ## Spec-side definitions (for refinement statements) -/

/-- Spec wording of the boundary filter (§4.3 step 4): a row is kept exactly
when its vertical center is `≥` the top bound and `≤` the bottom bound in
`inclusive` mode, and strictly `>` / `<` in `exclusive` mode. -/
def specRowKept (tm bm : BoundaryMode) (t b : ℚ) (g : List TextBlock) : Bool :=
  (match tm with
   | BoundaryMode.inclusive => decide (rowAvgCenterY g ≥ t)
   | BoundaryMode.exclusive => decide (rowAvgCenterY g > t)) &&
  (match bm with
   | BoundaryMode.inclusive => decide (rowAvgCenterY g ≤ b)
   | BoundaryMode.exclusive => decide (rowAvgCenterY g < b))

/-! ## Concrete fixtures -/

/-- Shorthand for a text block. -/
def tb (t : String) (x1 y1 x2 y2 : ℚ) : TextBlock := ⟨t, ⟨x1, y1, x2, y2⟩⟩

/-- One-page single-account document of the C6 scenario: no combined
phrase, one "Account Number: ****1234" occurrence and a "Savings" block. -/
def c6page : Page :=
  ⟨[tb "Account Number: ****1234" (1/10) (2/10) (5/10) (22/100),
    tb "Savings" (1/10) (3/10) (3/10) (32/100)], []⟩

def c6doc : Document := ⟨[c6page]⟩

/-- Combined-statement page whose summary-table row carries no digits in its
account-number cell. -/
def c7page : Page :=
  ⟨[tb "Your combined statement" (1/10) (4/100) (5/10) (8/100),
    tb "Interest" (1/10) (29/100) (2/10) (31/100),
    tb "rate 1.5%" (5/10) (29/100) (6/10) (31/100)],
   [⟨0, ["Account number", "Balance"], 1⟩]⟩

def c7doc : Document := ⟨[c7page]⟩

/-- Page where the phrase "Total deposits" spans two blocks of one row but
occurs in no single block. -/
def c3page : Page :=
  ⟨[tb "Total" (1/10) (5/10) (2/10) (52/100),
    tb "deposits" (3/10) (5/10) (4/10) (52/100)], []⟩

def c3tbl : ProcessedTable := ⟨0, [], 0⟩

/-- A page with a well-formed Deposits table whose only transaction row has
the amount `0.00`. -/
def c10page : Page :=
  ⟨[tb "Bank of America" (1/10) (2/100) (3/10) (4/100),
    tb "Deposits and other additions" (1/10) (9/100) (4/10) (11/100),
    tb "Date" (1/10) (14/100) (15/100) (16/100),
    tb "Description" (3/10) (14/100) (4/10) (16/100),
    tb "Amount" (6/10) (14/100) (7/10) (16/100),
    tb "01/02/24" (1/10) (19/100) (15/100) (21/100),
    tb "PAYPAL" (3/10) (19/100) (4/10) (21/100),
    tb "0.00" (6/10) (19/100) (7/10) (21/100)],
   [⟨0, ["Date", "Description", "Amount"], 1⟩]⟩

/-- The same page with amount `7.50` instead of `0.00`. -/
def c10bpage : Page :=
  ⟨[tb "Bank of America" (1/10) (2/100) (3/10) (4/100),
    tb "Deposits and other additions" (1/10) (9/100) (4/10) (11/100),
    tb "Date" (1/10) (14/100) (15/100) (16/100),
    tb "Description" (3/10) (14/100) (4/10) (16/100),
    tb "Amount" (6/10) (14/100) (7/10) (16/100),
    tb "01/02/24" (1/10) (19/100) (15/100) (21/100),
    tb "PAYPAL" (3/10) (19/100) (4/10) (21/100),
    tb "7.50" (6/10) (19/100) (7/10) (21/100)],
   [⟨0, ["Date", "Description", "Amount"], 1⟩]⟩

def c10bdoc : Document := ⟨[c10bpage]⟩

/-- Blocks at vertical centers `0.10, 0.105, 0.13, 0.30` (the C5 example). -/
def c5blocks : List TextBlock :=
  [tb "a" 0 (1/10 - 1/100) (1/10) (1/10 + 1/100),
   tb "b" 0 (105/1000 - 1/100) (1/10) (105/1000 + 1/100),
   tb "c" 0 (13/100 - 1/100) (1/10) (13/100 + 1/100),
   tb "d" 0 (3/10 - 1/100) (1/10) (3/10 + 1/100)]

/-- Three one-block rows at centers `0.1`, `0.2`, `0.3`: the first sits
exactly on a top bound of `0.1`, the last exactly on a bottom bound of
`0.3`. -/
def c4page : Page :=
  ⟨[tb "edge" (1/10) (8/100) (2/10) (12/100),
    tb "mid" (1/10) (18/100) (2/10) (22/100),
    tb "low" (1/10) (28/100) (2/10) (32/100)], []⟩

/-- Accounts with `pageReference` values 3, 7, 12 (the C2 example). -/
def c2accounts : List Account :=
  [⟨"1111", none, some 3, emptyTx, emptyMeta⟩,
   ⟨"2222", none, some 7, emptyTx, emptyMeta⟩,
   ⟨"3333", none, some 12, emptyTx, emptyMeta⟩]

def c4tbl : ProcessedTable := ⟨0, [], 0⟩

/-! ## Invariant predicates -/

/-- The amended C7 invariant on `accountNumberLast4`: the sentinel, or a
string of at most four decimal digits. -/
def last4Ok (s : String) : Prop :=
  s = "unknown" ∨ (s.length ≤ 4 ∧ ∀ c ∈ s.toList, c.isDigit = true)

/-- A transaction whose amount is non-null and non-zero (the JavaScript
truthiness guard; `NaN` cannot arise over `ℚ`). -/
def txOk (t : Transaction) : Prop := ∃ a, t.amount = some a ∧ a ≠ 0

/-- All transactions in the account's deposits, withdrawals and ATM/debit
lists have truthy amounts. -/
def acctTxOk (acc : Account) : Prop :=
  ∀ t ∈ acc.allTransactions.deposits ++ acc.allTransactions.withdrawals ++
    acc.allTransactions.atmDebit, txOk t

/-- State of an account as created by the first-page phase: a well-formed
last-4 string and empty transaction lists. -/
def accInit (acc : Account) : Prop :=
  last4Ok acc.accountNumberLast4 ∧ acc.allTransactions = emptyTx

/-! ## Helper lemmas -/

theorem scanFirst_eq_some {α : Type} {f : List Char → Option α} :
    ∀ {s : List Char} {a : α}, scanFirst f s = some a → ∃ u, f u = some a := by
  intro s
  induction s with
  | nil => exact fun h => ⟨[], h⟩
  | cons c t ih =>
    intro a h
    rw [scanFirst] at h
    cases hf : f (c :: t) with
    | some b => rw [hf] at h; simp only [Option.orElse] at h; exact ⟨c :: t, hf.trans h⟩
    | none => rw [hf] at h; simp only [Option.orElse] at h; exact ih h

theorem ratFromCapture_nonneg (run : List Char) (d1 d2 : Char) :
    0 ≤ ratFromCapture run d1 d2 := by
  unfold ratFromCapture
  positivity

theorem tryAmountAt_nonneg {s : List Char} {v : ℚ} (h : tryAmountAt s = some v) : 0 ≤ v := by
  simp only [tryAmountAt] at h
  rcases Option.map_eq_some'.mp h with ⟨r, _, rfl⟩
  exact ratFromCapture_nonneg _ _ _

theorem amountFirst_nonneg {s : List Char} {v : ℚ} (h : amountFirst s = some v) : 0 ≤ v := by
  obtain ⟨u, hu⟩ := scanFirst_eq_some h
  exact tryAmountAt_nonneg hu

theorem extractAmount_nonneg {s : String} {v : ℚ} (hm : hasNegMarker s = false)
    (h : extractAmount s = some v) : 0 ≤ v := by
  unfold extractAmount at h
  cases hv : amountFirst s.toList with
  | none => rw [hv] at h; exact absurd h (by simp)
  | some w =>
    rw [hv, hm] at h
    simp only [Bool.false_eq_true, if_false, Option.some.injEq] at h
    exact h ▸ amountFirst_nonneg hv

theorem clusterLoop_ne_nil : ∀ (bs cur : List TextBlock) (lastY : ℚ),
    ∀ g ∈ clusterLoop bs cur lastY, g ≠ [] := by
  intro bs
  induction bs with
  | nil =>
    intro cur lastY g hg
    rw [clusterLoop] at hg
    by_cases hc : cur.isEmpty
    · rw [if_pos hc] at hg; exact absurd hg (List.not_mem_nil g)
    · rw [if_neg hc] at hg
      rw [List.mem_singleton] at hg
      subst hg
      exact fun he => hc (by simp [he])
  | cons b rest ih =>
    intro cur lastY g hg
    rw [clusterLoop] at hg
    by_cases hsplit : 0 ≤ lastY ∧ 1/50 < cY b - lastY
    · rw [if_pos hsplit] at hg
      by_cases hc : cur.isEmpty
      · rw [if_pos hc] at hg; exact ih _ _ g hg
      · rw [if_neg hc] at hg
        rcases List.mem_cons.mp hg with h | h
        · subst h; exact fun he => hc (by simp [he])
        · exact ih _ _ g h
    · rw [if_neg hsplit] at hg
      exact ih _ _ g hg

theorem clusterRows_ne_nil (bs : List TextBlock) :
    ∀ g ∈ clusterRows bs, g ≠ [] :=
  clusterLoop_ne_nil bs [] (-1)

theorem filterMap_min1 : ∀ (l : List (List TextBlock)), (∀ g ∈ l, g ≠ []) →
    l.filterMap (fun g => if g.length < 1 then none else some (rowCells g)) = l.map rowCells := by
  intro l
  induction l with
  | nil => intro _; rfl
  | cons g t ih =>
    intro h
    rw [List.filterMap_cons, List.map_cons]
    rw [if_neg (by
      intro hlt
      exact h g (List.mem_cons_self g t) (List.eq_nil_of_length_eq_zero (Nat.lt_one_iff.mp hlt)))]
    rw [ih (fun x hx => h x (List.mem_cons_of_mem g hx))]

/-! ## Claim C1: sign convention of extractTransactionFromRow -/

/-- C1 (counterexample): a DEPOSIT row whose amount cell carries a minus
sign produces a strictly negative deposit amount, refuting
"`DEPOSIT` transactions have `amount ≥ 0`". -/
theorem c1_counterexample :
    (extractTransactionFromRow ["01/02/24", "refund", "-$5.00"] TxType.DEPOSIT).amount =
      some (-5) ∧ ¬(0 ≤ (-5 : ℚ)) := by
  constructor
  · decide
  · norm_num

/-- C1 (amended): every transaction built by `extractTransactionFromRow`
under type WITHDRAWAL or ATM_DEBIT has `amount ≤ 0` whenever the amount is
non-null; a DEPOSIT transaction has `amount ≥ 0` provided no cell of the row
carries a negativity marker (a `'-'` character or a parenthesised amount) —
otherwise the deposit keeps the negative sign extracted from the text. -/
theorem c1_sign_convention :
    (∀ (row : List String) (ty : TxType), (ty = TxType.WITHDRAWAL ∨ ty = TxType.ATM_DEBIT) →
      ∀ a : ℚ, (extractTransactionFromRow row ty).amount = some a → a ≤ 0) ∧
    (∀ row : List String, (∀ cell ∈ row, hasNegMarker cell = false) →
      ∀ a : ℚ, (extractTransactionFromRow row TxType.DEPOSIT).amount = some a → 0 ≤ a) := by
  constructor
  · intro row ty hty a h
    simp only [extractTransactionFromRow] at h
    rw [if_pos hty] at h
    rcases Option.map_eq_some'.mp h with ⟨b, _, rfl⟩
    exact neg_nonpos.mpr (abs_nonneg b)
  · intro row hcells a h
    simp only [extractTransactionFromRow] at h
    rw [if_neg (by decide : ¬(TxType.DEPOSIT = TxType.WITHDRAWAL ∨
      TxType.DEPOSIT = TxType.ATM_DEBIT))] at h
    by_cases hl : 1 < row.length
    · rw [if_pos hl] at h
      have hnil : row ≠ [] := by
        intro he; rw [he] at hl; exact absurd hl (by decide)
      cases hgl : row.getLast? with
      | none => exact absurd (List.getLast?_eq_none_iff.mp hgl) hnil
      | some lc =>
        rw [hgl] at h
        simp only [Option.getD_some] at h
        cases he : extractAmount lc with
        | some b =>
          rw [he] at h
          cases h
          exact extractAmount_nonneg (hcells lc (List.mem_of_getLast?_eq_some hgl)) he
        | none =>
          rw [he] at h
          obtain ⟨c, hc, hce⟩ := List.exists_of_findSome?_eq_some h
          exact extractAmount_nonneg (hcells c hc) hce
    · rw [if_neg hl] at h
      exact absurd h (by simp)

/-- C1 (witness). -/
theorem c1_sign_convention_witness :
    ((extractTransactionFromRow ["01/02/24", "fee", "5.00"] TxType.WITHDRAWAL).amount =
        some (-5) ∧ (-5 : ℚ) ≤ 0) ∧
    ((∀ cell ∈ ["01/02/24", "payroll", "7.50"], hasNegMarker cell = false) ∧
      (extractTransactionFromRow ["01/02/24", "payroll", "7.50"] TxType.DEPOSIT).amount =
        some (15/2) ∧ 0 ≤ (15/2 : ℚ)) :=
  ⟨⟨by decide,
    c1_sign_convention.1 ["01/02/24", "fee", "5.00"] TxType.WITHDRAWAL (Or.inl rfl) (-5)
      (by decide)⟩,
   ⟨by decide,
    by decide,
    c1_sign_convention.2 ["01/02/24", "payroll", "7.50"] (by decide) (15/2) (by decide)⟩⟩

/-! ## Claim C6: single-account scenario -/

/-- C6 (counterexample): on the one-page document with no combined phrase,
the single occurrence "Account Number: ****1234" and the "Savings" keyword,
the parser yields one account whose `accountNumberLast4` is `"unknown"`, not
`"1234"` (the capture regex demands a masked group followed by four further
digits, and a text-detected account is only recorded when an account type
was also found). -/
theorem c6_counterexample :
    (bofaProcess c6doc "").accounts.map (fun a => a.accountNumberLast4) = ["unknown"] ∧
      "unknown" ≠ "1234" := by
  constructor
  · decide
  · decide

/-- C6 (amended): the scenario document yields exactly one `Account`, with
`accountNumberLast4 = "unknown"` (the sentinel, since the account-number
regex does not match "****1234" and no bank-specific account type is
present) and `pageReference = 1`. -/
theorem c6_single_account_scenario :
    (bofaProcess c6doc "").accounts.map (fun a => (a.accountNumberLast4, a.pageReference)) =
      [("unknown", some 1)] := by decide

/-! ## Claim C4: boundary modes -/

/-- C4: with resolved top and bottom bounds, the transaction-table
reconstruction keeps exactly the clustered rows whose vertical center
satisfies the configured boundary mode (`inclusive`: `≥`/`≤`; `exclusive`:
strictly `>`/`<`), and a row centered exactly on a boundary coordinate is
kept in inclusive mode and dropped in exclusive mode (rows at centers
`0.1, 0.2, 0.3` against bounds `[0.1, 0.3]`). -/
theorem c4_boundary_modes :
    (∀ (page : Page) (tbl : ProcessedTable) (t b : ℚ) (tm bm : BoundaryMode) (ia : Option Bool),
      extractFullTableDataForTransactions page tbl ⟨none, none, some t, some b⟩
          ⟨some tm, some bm, ia⟩ =
        some ⟨tbl.headerCells,
          ((clusterRows (sortByCenterY page.textBlocks)).filter (specRowKept tm bm t b)).map
            rowCells⟩) ∧
    extractFullTableDataForTransactions c4page c4tbl ⟨none, none, some (1/10), some (3/10)⟩
        ⟨some BoundaryMode.inclusive, some BoundaryMode.inclusive, some false⟩ =
      some ⟨[], [["edge"], ["mid"], ["low"]]⟩ ∧
    extractFullTableDataForTransactions c4page c4tbl ⟨none, none, some (1/10), some (3/10)⟩
        ⟨some BoundaryMode.exclusive, some BoundaryMode.exclusive, some false⟩ =
      some ⟨[], [["mid"]]⟩ := by
  refine ⟨?_, by decide, by decide⟩
  intro page tbl t b tm bm ia
  have h1 : extractFullTableDataForTransactions page tbl ⟨none, none, some t, some b⟩
      ⟨some tm, some bm, ia⟩ =
      some ⟨tbl.headerCells,
        ((clusterRows (sortByCenterY page.textBlocks)).filter
            (fun g => boundsCond tm bm (some t) (some b) (rowAvgCenterY g))).filterMap
          (fun g => if g.length < 1 then none else some (rowCells g))⟩ := rfl
  rw [h1]
  have hfc : (clusterRows (sortByCenterY page.textBlocks)).filter
      (fun g => boundsCond tm bm (some t) (some b) (rowAvgCenterY g)) =
      (clusterRows (sortByCenterY page.textBlocks)).filter (specRowKept tm bm t b) :=
    List.filter_congr (fun g _ => by cases tm <;> cases bm <;> rfl)
  rw [hfc]
  rw [filterMap_min1 _ (fun g hg =>
    clusterRows_ne_nil _ g (List.mem_of_mem_filter hg))]

/-! ## Claim C9: template extraction memoisation -/

/-- C9: two successive `extractUsingTemplate` calls with the same page
number and template return the same result; the second call leaves the state
untouched (no re-scan), and for a valid page the result of the first call is
stored in the extraction cache under the template's id. -/
theorem c9_template_memoisation (s : DPState) (n : ℕ) (t : ExtractionTemplate) :
    (extractUsingTemplateS (extractUsingTemplateS s n t).2 n t).1 =
        (extractUsingTemplateS s n t).1 ∧
    (extractUsingTemplateS (extractUsingTemplateS s n t).2 n t).2 =
        (extractUsingTemplateS s n t).2 ∧
    ((processPage s.doc n).isSome →
      ∃ r, (extractUsingTemplateS s n t).1 = some r ∧
        ((extractUsingTemplateS s n t).2).extracted.lookup (n, t.id) = some r) := by
  cases hp : processPage s.doc n with
  | none =>
    have h1 : extractUsingTemplateS s n t = (none, s) := by
      unfold extractUsingTemplateS
      rw [hp]
    rw [h1]
    exact ⟨by rw [h1], by rw [h1], by simp [hp]⟩
  | some page =>
    cases hl : s.extracted.lookup (n, t.id) with
    | some r =>
      have h1 : extractUsingTemplateS s n t = (some r, s) := by
        unfold extractUsingTemplateS
        rw [hp, hl]
      rw [h1]
      exact ⟨by rw [h1], by rw [h1], fun _ => ⟨r, rfl, hl⟩⟩
    | none =>
      have h1 : extractUsingTemplateS s n t =
          (some (computeTemplateExtraction page t),
           ⟨s.doc, ((n, t.id), computeTemplateExtraction page t) :: s.extracted⟩) := by
        unfold extractUsingTemplateS
        rw [hp, hl]
      have hl2 : (((n, t.id), computeTemplateExtraction page t) ::
          s.extracted).lookup (n, t.id) = some (computeTemplateExtraction page t) := by
        simp [List.lookup]
      have h2 : extractUsingTemplateS
          (⟨s.doc, ((n, t.id), computeTemplateExtraction page t) :: s.extracted⟩ : DPState)
          n t =
          (some (computeTemplateExtraction page t),
           ⟨s.doc, ((n, t.id), computeTemplateExtraction page t) :: s.extracted⟩) := by
        unfold extractUsingTemplateS
        rw [show (⟨s.doc, ((n, t.id), computeTemplateExtraction page t) ::
          s.extracted⟩ : DPState).doc = s.doc from rfl, hp, hl2]
      rw [h1]
      exact ⟨by rw [h2], by rw [h2], fun _ => ⟨computeTemplateExtraction page t, rfl, hl2⟩⟩

/-- C9 (witness): a concrete one-page state with the date template. -/
theorem c9_template_memoisation_witness :
    (processPage (⟨[c6page]⟩ : Document) 1).isSome ∧
    ∃ r, (extractUsingTemplateS ⟨⟨[c6page]⟩, []⟩ 1 dateExtractionTemplate).1 = some r ∧
      ((extractUsingTemplateS ⟨⟨[c6page]⟩, []⟩ 1 dateExtractionTemplate).2).extracted.lookup
        (1, dateExtractionTemplate.id) = some r :=
  ⟨by decide,
   (c9_template_memoisation ⟨⟨[c6page]⟩, []⟩ 1 dateExtractionTemplate).2.2 (by decide)⟩

/-! ## Claim C8: process never throws and degrades to base data -/

theorem extractStatementPeriod_bankName (dd : TemplateResults)
    (d : ProcessedStatementData) :
    (extractStatementPeriod dd d).bankName = d.bankName := by
  unfold extractStatementPeriod
  split
  · split <;> rfl
  · split <;> rfl

theorem extractAccountInfoFromTable_bankName (p : Page) (tbl : ProcessedTable)
    (d : ProcessedStatementData) :
    (extractAccountInfoFromTable p tbl d).bankName = d.bankName := by
  unfold extractAccountInfoFromTable
  split
  · rfl
  · split
    · rfl
    · rfl

theorem processCombinedStatementPage_bankName (p : Page) (d : ProcessedStatementData) :
    (processCombinedStatementPage p d).bankName = d.bankName := by
  unfold processCombinedStatementPage
  split
  · exact extractStatementPeriod_bankName _ _
  · split
    · rw [extractAccountInfoFromTable_bankName]
      exact extractStatementPeriod_bankName _ _
    · exact extractStatementPeriod_bankName _ _

theorem processNonCombinedStatementPage_bankName (p : Page) (d : ProcessedStatementData) :
    (processNonCombinedStatementPage p d).bankName = d.bankName := by
  unfold processNonCombinedStatementPage
  exact extractStatementPeriod_bankName _ _

theorem processAccountDetailPages_bankName (doc : Document) (d : ProcessedStatementData) :
    (processAccountDetailPages doc d).bankName = d.bankName := rfl

theorem bofaProcess_bankName (doc : Document) (raw : String) :
    (bofaProcess doc raw).bankName = some "Bank of America" := by
  unfold bofaProcess
  split
  · rfl
  · rw [processAccountDetailPages_bankName]
    split
    · exact processCombinedStatementPage_bankName _ _
    · exact processNonCombinedStatementPage_bankName _ _

/-- C8: `process` is modelled as a total function (every caught exception is
an explicit branch), so it returns a `ProcessedStatementData` on every
input; when document loading fails it returns exactly the base data (bank
name set, no accounts, null statement period), and on every loaded document
the result still carries the base bank name. -/
theorem c8_never_throws :
    (∀ raw : String, bofaProcessTop none raw =
      { bankName := some "Bank of America", accounts := [],
        statementPeriodStartDate := none, statementPeriodEndDate := none,
        rawText := raw, totalBalance := none }) ∧
    (∀ (doc : Document) (raw : String),
      (bofaProcessTop (some doc) raw).bankName = some "Bank of America") :=
  ⟨fun _ => rfl, fun doc raw => bofaProcess_bankName doc raw⟩

/-! ## Claim C3: missing anchors -/

theorem findTopAnchorRowGo_eq_none (a : String) :
    ∀ (rows : List (List String)) (i : ℕ),
      (∀ r ∈ rows, strIncludesCI (joinSpace r) a = false) →
      findTopAnchorRowGo a i rows = none := by
  intro rows
  induction rows with
  | nil => intro i _; rfl
  | cons r rest ih =>
    intro i h
    simp only [findTopAnchorRowGo, h r (List.mem_cons_self r rest), Bool.false_eq_true, if_false]
    exact ih (i + 1) (fun x hx => h x (List.mem_cons_of_mem r hx))

theorem findBottomAnchorRowGo_eq_none (a : String) :
    ∀ (rows : List (List String)) (i : ℕ),
      (∀ r ∈ rows, strIncludes (joinSpace r) a = false) →
      findBottomAnchorRowGo a i rows = none := by
  intro rows
  induction rows with
  | nil => intro i _; rfl
  | cons r rest ih =>
    intro i h
    simp only [findBottomAnchorRowGo, h r (List.mem_cons_self r rest), Bool.false_eq_true, if_false]
    exact ih (i + 1) (fun x hx => h x (List.mem_cons_of_mem r hx))

/-- C3 (counterexample): on a page where the requested bottom anchor phrase
"Total deposits" occurs in no text block (it spans two adjacent blocks of
one row), the transaction-table reconstruction does NOT return `null` — it
finds the anchor in the row's space-joined text and returns a (here empty)
row list, refuting the claim as stated. -/
theorem c3_counterexample :
    (∀ b ∈ c3page.textBlocks, strIncludes b.text "Total deposits" = false) ∧
    extractFullTableDataForTransactions c3page c3tbl
        ⟨none, some "Total deposits", none, none⟩ ⟨none, none, none⟩ ≠ none := by
  constructor
  · decide
  · decide

/-- C3 (amended): the transaction-table reconstruction searches the
*clustered rows' space-joined text* for its anchors (case-insensitively for
the top anchor, case-sensitively for the bottom anchor); when the anchor
occurs in no row's joined text the whole operation returns `null` — not an
exception and not an empty row list.  The generic reconstruction resolves
anchors against single blocks (case-sensitively): a top or bottom anchor
occurring in no block leaves that vertical boundary unset, so the result
equals the reconstruction with that anchor absent, built from all
otherwise-eligible blocks. -/
theorem c3_missing_anchor :
    (∀ (page : Page) (tbl : ProcessedTable) (a : String) (ba : Option String)
        (py1 py2 : Option ℚ) (opts : BoundaryOptions),
      (∀ g ∈ clusterRows (sortByCenterY page.textBlocks),
        strIncludesCI (joinSpace (g.map (fun b => b.text))) a = false) →
      extractFullTableDataForTransactions page tbl ⟨some a, ba, py1, py2⟩ opts = none) ∧
    (∀ (page : Page) (tbl : ProcessedTable) (a : String)
        (py1 py2 : Option ℚ) (opts : BoundaryOptions),
      (∀ g ∈ clusterRows (sortByCenterY page.textBlocks),
        strIncludes (joinSpace (g.map (fun b => b.text))) a = false) →
      extractFullTableDataForTransactions page tbl ⟨none, some a, py1, py2⟩ opts = none) ∧
    (∀ (page : Page) (tbl : ProcessedTable) (a : String) (ba : Option String)
        (py2 : Option ℚ) (opts : BoundaryOptions),
      (∀ b ∈ page.textBlocks, strIncludes b.text a = false) →
      extractFullTableData page tbl ⟨some a, ba, none, py2⟩ opts =
        extractFullTableData page tbl ⟨none, ba, none, py2⟩ opts) ∧
    (∀ (page : Page) (tbl : ProcessedTable) (a : String) (ta : Option String)
        (py1 : Option ℚ) (opts : BoundaryOptions),
      (∀ b ∈ page.textBlocks, strIncludes b.text a = false) →
      extractFullTableData page tbl ⟨ta, some a, py1, none⟩ opts =
        extractFullTableData page tbl ⟨ta, none, py1, none⟩ opts) := by
  refine ⟨?_, ?_, ?_, ?_⟩
  · intro page tbl a ba py1 py2 opts h
    have hfind : findTopAnchorRowGo a 0
        ((clusterRows (sortByCenterY page.textBlocks)).map (fun g => g.map (fun b => b.text))) =
        none := by
      apply findTopAnchorRowGo_eq_none
      intro r hr
      rcases List.mem_map.mp hr with ⟨g, hg, rfl⟩
      exact h g hg
    simp only [extractFullTableDataForTransactions, hfind]
  · intro page tbl a py1 py2 opts h
    have hfind : findBottomAnchorRowGo a 0
        ((clusterRows (sortByCenterY page.textBlocks)).map (fun g => g.map (fun b => b.text))) =
        none := by
      apply findBottomAnchorRowGo_eq_none
      intro r hr
      rcases List.mem_map.mp hr with ⟨g, hg, rfl⟩
      exact h g hg
    simp only [extractFullTableDataForTransactions, hfind]
  · intro page tbl a ba py2 opts h
    have hfind : page.textBlocks.find? (fun b => strIncludes b.text a) = none :=
      List.find?_eq_none.mpr (fun b hb => by rw [h b hb]; exact Bool.false_ne_true)
    simp only [extractFullTableData, hfind]
  · intro page tbl a ta py1 opts h
    have hfind : page.textBlocks.find? (fun b => strIncludes b.text a) = none :=
      List.find?_eq_none.mpr (fun b hb => by rw [h b hb]; exact Bool.false_ne_true)
    simp only [extractFullTableData, hfind]

/-- C3 (witness): concrete instantiations of all four parts on the c6 page,
whose single clustered row never mentions the anchor "Account summary". -/
theorem c3_missing_anchor_witness :
    ((∀ g ∈ clusterRows (sortByCenterY c6page.textBlocks),
        strIncludesCI (joinSpace (g.map (fun b => b.text))) "Account summary" = false) ∧
      extractFullTableDataForTransactions c6page c3tbl
        ⟨some "Account summary", none, none, none⟩ ⟨none, none, none⟩ = none) ∧
    ((∀ g ∈ clusterRows (sortByCenterY c6page.textBlocks),
        strIncludes (joinSpace (g.map (fun b => b.text))) "Account summary" = false) ∧
      extractFullTableDataForTransactions c6page c3tbl
        ⟨none, some "Account summary", none, none⟩ ⟨none, none, none⟩ = none) ∧
    ((∀ b ∈ c6page.textBlocks, strIncludes b.text "Account summary" = false) ∧
      extractFullTableData c6page c3tbl ⟨some "Account summary", none, none, none⟩
          ⟨none, none, none⟩ =
        extractFullTableData c6page c3tbl ⟨none, none, none, none⟩ ⟨none, none, none⟩) ∧
    ((∀ b ∈ c6page.textBlocks, strIncludes b.text "Account summary" = false) ∧
      extractFullTableData c6page c3tbl ⟨none, some "Account summary", none, none⟩
          ⟨none, none, none⟩ =
        extractFullTableData c6page c3tbl ⟨none, none, none, none⟩ ⟨none, none, none⟩) :=
  ⟨⟨by decide, c3_missing_anchor.1 c6page c3tbl "Account summary" none none none
      ⟨none, none, none⟩ (by decide)⟩,
   ⟨by decide, c3_missing_anchor.2.1 c6page c3tbl "Account summary" none none
      ⟨none, none, none⟩ (by decide)⟩,
   ⟨by decide, c3_missing_anchor.2.2.1 c6page c3tbl "Account summary" none none
      ⟨none, none, none⟩ (by decide)⟩,
   ⟨by decide, c3_missing_anchor.2.2.2 c6page c3tbl "Account summary" none none
      ⟨none, none, none⟩ (by decide)⟩⟩

/-! ## Claim C5: greedy row clustering -/

theorem clusterLoop_join : ∀ (bs cur : List TextBlock) (lastY : ℚ),
    (clusterLoop bs cur lastY).join = cur ++ bs := by
  intro bs
  induction bs with
  | nil =>
    intro cur lastY
    by_cases hc : cur.isEmpty
    · simp only [clusterLoop, if_pos hc]
      simp [List.isEmpty_iff.mp hc]
    · simp only [clusterLoop, if_neg hc]
      simp
  | cons b rest ih =>
    intro cur lastY
    by_cases hs : 0 ≤ lastY ∧ 1/50 < cY b - lastY
    · by_cases hc : cur.isEmpty
      · simp only [clusterLoop, if_pos hs, if_pos hc, ih]
        simp [List.isEmpty_iff.mp hc]
      · simp only [clusterLoop, if_pos hs, if_neg hc, List.join_cons, ih]
        simp
    · simp only [clusterLoop, if_neg hs, ih]
      simp

theorem clusterLoop_chain_within :
    ∀ (bs cur : List TextBlock) (lastY : ℚ),
      (∀ x ∈ bs, 0 ≤ cY x) →
      List.Chain' (fun x y => cY y - cY x ≤ 1/50) cur →
      (∀ h : cur ≠ [], lastY = cY (cur.getLast h) ∧ 0 ≤ lastY) →
      ∀ g ∈ clusterLoop bs cur lastY, List.Chain' (fun x y => cY y - cY x ≤ 1/50) g := by
  intro bs
  induction bs with
  | nil =>
    intro cur lastY _ hcur _ g hg
    by_cases hc : cur.isEmpty
    · simp only [clusterLoop, if_pos hc] at hg
      exact absurd hg (List.not_mem_nil g)
    · simp only [clusterLoop, if_neg hc, List.mem_singleton] at hg
      exact hg ▸ hcur
  | cons b rest ih =>
    intro cur lastY hpos hcur hinv g hg
    have hb : 0 ≤ cY b := hpos b (List.mem_cons_self b rest)
    have hpos2 : ∀ x ∈ rest, 0 ≤ cY x := fun x hx => hpos x (List.mem_cons_of_mem b hx)
    by_cases hs : 0 ≤ lastY ∧ 1/50 < cY b - lastY
    · by_cases hc : cur.isEmpty
      · simp only [clusterLoop, if_pos hs, if_pos hc] at hg
        exact ih [b] (cY b) hpos2 (List.chain'_singleton b)
          (fun _ => ⟨rfl, hb⟩) g hg
      · simp only [clusterLoop, if_pos hs, if_neg hc, List.mem_cons] at hg
        rcases hg with h | h
        · exact h ▸ hcur
        · exact ih [b] (cY b) hpos2 (List.chain'_singleton b)
            (fun _ => ⟨rfl, hb⟩) g h
    · simp only [clusterLoop, if_neg hs] at hg
      have hne : (cur ++ [b]) ≠ [] := by simp
      refine ih (cur ++ [b]) (cY b) hpos2 ?_ (fun _ => ⟨?_, hb⟩) g hg
      · rw [List.chain'_append]
        refine ⟨hcur, List.chain'_singleton b, ?_⟩
        intro x hx y hy
        simp only [List.head?_cons, Option.mem_def, Option.some.injEq] at hy
        subst hy
        rcases List.mem_getLast?_eq_getLast hx with ⟨hne2, rfl⟩
        rcases hinv hne2 with ⟨hEq, hge⟩
        rw [← hEq]
        by_contra hlt
        push_neg at hlt
        exact hs ⟨hge, hlt⟩
      · simp [List.getLast_append]

theorem clusterLoop_head : ∀ (bs cur : List TextBlock) (lastY : ℚ), cur ≠ [] →
    ∃ g gs, clusterLoop bs cur lastY = g :: gs ∧ g.head? = cur.head? := by
  intro bs
  induction bs with
  | nil =>
    intro cur lastY h
    have hc : ¬cur.isEmpty := by simpa [List.isEmpty_iff] using h
    exact ⟨cur, [], by simp only [clusterLoop, if_neg hc], rfl⟩
  | cons b rest ih =>
    intro cur lastY h
    have hc : ¬cur.isEmpty := by simpa [List.isEmpty_iff] using h
    by_cases hs : 0 ≤ lastY ∧ 1/50 < cY b - lastY
    · exact ⟨cur, clusterLoop rest [b] (cY b),
        by simp only [clusterLoop, if_pos hs, if_neg hc], rfl⟩
    · rcases ih (cur ++ [b]) (cY b) (by simp) with ⟨g, gs, heq, hh⟩
      refine ⟨g, gs, by simp only [clusterLoop, if_neg hs]; exact heq, ?_⟩
      rw [hh]
      cases cur with
      | nil => exact absurd rfl h
      | cons c t => rfl

theorem clusterLoop_chain_between :
    ∀ (bs cur : List TextBlock) (lastY : ℚ),
      (∀ h : cur ≠ [], lastY = cY (cur.getLast h)) →
      List.Chain' (fun g h2 => ∀ x ∈ g.getLast?, ∀ y ∈ h2.head?, 1/50 < cY y - cY x)
        (clusterLoop bs cur lastY) := by
  intro bs
  induction bs with
  | nil =>
    intro cur lastY _
    by_cases hc : cur.isEmpty
    · simp only [clusterLoop, if_pos hc]
      exact List.chain'_nil
    · simp only [clusterLoop, if_neg hc]
      exact List.chain'_singleton cur
  | cons b rest ih =>
    intro cur lastY hinv
    by_cases hs : 0 ≤ lastY ∧ 1/50 < cY b - lastY
    · by_cases hc : cur.isEmpty
      · simp only [clusterLoop, if_pos hs, if_pos hc]
        exact ih [b] (cY b) (fun _ => rfl)
      · simp only [clusterLoop, if_pos hs, if_neg hc]
        rcases clusterLoop_head rest [b] (cY b) (by simp) with ⟨g, gs, heq, hh⟩
        rw [heq, List.chain'_cons']
        constructor
        · intro y hy
          simp only [List.head?_cons, Option.mem_def, Option.some.injEq] at hy
          subst hy
          intro x hx z hz
          rw [hh] at hz
          simp only [List.head?_cons, Option.mem_def, Option.some.injEq] at hz
          subst hz
          rcases List.mem_getLast?_eq_getLast hx with ⟨hne2, rfl⟩
          rw [← hinv hne2]
          exact hs.2
        · exact heq ▸ ih [b] (cY b) (fun _ => rfl)
    · simp only [clusterLoop, if_neg hs]
      refine ih (cur ++ [b]) (cY b) (fun _ => ?_)
      simp [List.getLast_append]

/-- C5: row clustering is single-pass greedy with threshold `0.02`: the rows
partition the sorted block sequence in order, consecutive blocks within a
row are at most `0.02` apart in vertical center, the first block of each
subsequent row is more than `0.02` below the last block of the previous row,
and blocks at vertical centers `[0.10, 0.105, 0.13, 0.30]` cluster into
exactly the three rows `{0.10, 0.105}`, `{0.13}`, `{0.30}`. -/
theorem c5_row_clustering :
    (∀ bs : List TextBlock,
      List.Sorted (fun x y => cY x ≤ cY y) bs →
      (∀ x ∈ bs, 0 ≤ cY x) →
      ((clusterRows bs).join = bs ∧
       (∀ g ∈ clusterRows bs, g ≠ [] ∧ List.Chain' (fun x y => cY y - cY x ≤ 1/50) g) ∧
       List.Chain' (fun g h2 => ∀ x ∈ g.getLast?, ∀ y ∈ h2.head?, 1/50 < cY y - cY x)
         (clusterRows bs))) ∧
    (clusterRows c5blocks).map (fun g => g.map cY) =
      [[1/10, 105/1000], [13/100], [3/10]] := by
  constructor
  · intro bs _ hpos
    exact ⟨clusterLoop_join bs [] (-1),
      fun g hg => ⟨clusterRows_ne_nil bs g hg,
        clusterLoop_chain_within bs [] (-1) hpos List.chain'_nil
          (fun h => absurd rfl h) g hg⟩,
      clusterLoop_chain_between bs [] (-1) (fun h => absurd rfl h)⟩
  · decide

/-- C5 (witness): the characterisation instantiated at the example blocks. -/
theorem c5_row_clustering_witness :
    List.Sorted (fun x y => cY x ≤ cY y) c5blocks ∧ (∀ x ∈ c5blocks, 0 ≤ cY x) ∧
    ((clusterRows c5blocks).join = c5blocks ∧
     (∀ g ∈ clusterRows c5blocks, g ≠ [] ∧
        List.Chain' (fun x y => cY y - cY x ≤ 1/50) g) ∧
     List.Chain' (fun g h2 => ∀ x ∈ g.getLast?, ∀ y ∈ h2.head?, 1/50 < cY y - cY x)
       (clusterRows c5blocks)) :=
  ⟨by decide, by decide, c5_row_clustering.1 c5blocks (by decide) (by decide)⟩

/-! ## Claim C2: account page ranges -/

theorem enumFrom_filter_map_refs : ∀ (l : List Account) (n : ℕ),
    ((List.enumFrom n l).filter (fun p => p.2.pageReference ≠ none)).map
        (fun p => pageRefKey p.2) =
      l.filterMap (fun a => a.pageReference) := by
  intro l
  induction l with
  | nil => intro n; rfl
  | cons a t ih =>
    intro n
    have ih2 := ih (n + 1)
    rw [List.enumFrom_cons, List.filterMap_cons, List.filter_cons]
    cases h : a.pageReference with
    | none => simpa [h] using ih2
    | some r => simpa [h, pageRefKey] using ih2

theorem rangesLoop_spec (N : ℕ) :
    ∀ l : List (ℕ × Account),
      (∀ p ∈ l, 1 ≤ pageRefKey p.2 ∧ pageRefKey p.2 ≤ N) →
      l.Pairwise (fun p q => pageRefKey p.2 < pageRefKey q.2) →
      ((rangesLoop N l).map (fun t => t.2.1) = l.map (fun p => pageRefKey p.2) ∧
       List.Chain' (fun t u => t.2.2 + 1 = u.2.1) (rangesLoop N l) ∧
       (∀ t ∈ rangesLoop N l, t.2.1 ≤ t.2.2) ∧
       (∀ t ∈ (rangesLoop N l).getLast?, t.2.2 = N)) := by
  intro l
  induction l with
  | nil => exact fun _ _ => ⟨rfl, List.chain'_nil, fun t ht => absurd ht (List.not_mem_nil t),
      fun t ht => by simp [rangesLoop] at ht⟩
  | cons p rest ih =>
    intro hb hpw
    obtain ⟨i, a⟩ := p
    have ha1 : 1 ≤ pageRefKey a := (hb (i, a) (List.mem_cons_self _ _)).1
    have ha0 : ¬pageRefKey a = 0 := by omega
    cases rest with
    | nil =>
      have heq : rangesLoop N [(i, a)] = [(i, pageRefKey a, N)] := by
        simp only [rangesLoop, if_neg ha0]
      rw [heq]
      refine ⟨rfl, List.chain'_singleton _, ?_, ?_⟩
      · intro t ht
        rw [List.mem_singleton] at ht
        subst ht
        exact (hb (i, a) (List.mem_cons_self _ _)).2
      · intro t ht
        simp only [List.getLast?_singleton, Option.mem_def, Option.some.injEq] at ht
        subst ht
        rfl
    | cons q rest2 =>
      obtain ⟨j, b⟩ := q
      have hb1 : 1 ≤ pageRefKey b := (hb (j, b) (List.mem_cons_of_mem _ (List.mem_cons_self _ _))).1
      have hb0 : ¬pageRefKey b = 0 := by omega
      have heq : rangesLoop N ((i, a) :: (j, b) :: rest2) =
          (i, pageRefKey a, pageRefKey b - 1) :: rangesLoop N ((j, b) :: rest2) := by
        simp only [rangesLoop, if_neg ha0, if_neg hb0]
      have hbrest : ∀ p ∈ (j, b) :: rest2, 1 ≤ pageRefKey p.2 ∧ pageRefKey p.2 ≤ N :=
        fun p hp => hb p (List.mem_cons_of_mem _ hp)
      have hpwrest : ((j, b) :: rest2).Pairwise (fun p q => pageRefKey p.2 < pageRefKey q.2) :=
        hpw.of_cons
      obtain ⟨ihmap, ihchain, ihle, ihlast⟩ := ih hbrest hpwrest
      have hrb : ∃ e2, rangesLoop N ((j, b) :: rest2) =
          (j, pageRefKey b, e2) :: rangesLoop N rest2 := by
        cases rest2 with
        | nil => exact ⟨N, by simp only [rangesLoop, if_neg hb0]⟩
        | cons w ws =>
          exact ⟨(if pageRefKey w.2 = 0 then N else pageRefKey w.2) - 1,
            by obtain ⟨u, c⟩ := w; simp only [rangesLoop, if_neg hb0]⟩
      obtain ⟨e2, he2⟩ := hrb
      have hab : pageRefKey a < pageRefKey b :=
        (List.pairwise_cons.mp hpw).1 (j, b) (List.mem_cons_self _ _)
      rw [heq]
      refine ⟨?_, ?_, ?_, ?_⟩
      · simp only [List.map_cons, ihmap]
      · rw [List.chain'_cons']
        constructor
        · intro u hu
          rw [he2] at hu
          simp only [List.head?_cons, Option.mem_def, Option.some.injEq] at hu
          subst hu
          show pageRefKey b - 1 + 1 = pageRefKey b
          omega
        · exact ihchain
      · intro t ht
        rcases List.mem_cons.mp ht with h | h
        · subst h
          show pageRefKey a ≤ pageRefKey b - 1
          omega
        · exact ihle t h
      · intro t ht
        rw [he2, List.getLast?_cons_cons, ← he2] at ht
        exact ihlast t ht

/-- C2: for accounts with defined, distinct, positive page references all at
most the page count `N`, the ranges computed by `processAccountDetailPages`
start at the sorted page references, are contiguous and non-empty (hence
non-overlapping), and the last range ends at page `N`; page references
`[3, 7, 12]` with 15 pages give exactly `[3,6], [7,11], [12,15]`. -/
theorem c2_account_page_ranges :
    (∀ (accs : List Account) (N : ℕ),
      (∀ a ∈ accs, a.pageReference ≠ none) →
      (accs.filterMap (fun a => a.pageReference)).Nodup →
      (∀ r ∈ accs.filterMap (fun a => a.pageReference), 1 ≤ r ∧ r ≤ N) →
      (List.Perm ((detailRanges accs N).map Prod.fst)
          (accs.filterMap (fun a => a.pageReference)) ∧
       List.Sorted (· < ·) ((detailRanges accs N).map Prod.fst) ∧
       List.Chain' (fun r s => r.2 + 1 = s.1) (detailRanges accs N) ∧
       (∀ r ∈ detailRanges accs N, r.1 ≤ r.2) ∧
       (∀ r ∈ (detailRanges accs N).getLast?, r.2 = N))) ∧
    detailRanges c2accounts 15 = [(3, 6), (7, 11), (12, 15)] := by
  constructor
  · intro accs N _ hnd hbnd
    have hmapkeys : ((accs.enum).filter (fun p => p.2.pageReference ≠ none)).map
        (fun p => pageRefKey p.2) = accs.filterMap (fun a => a.pageReference) :=
      enumFrom_filter_map_refs accs 0
    set l0 := (accs.enum).filter (fun p => p.2.pageReference ≠ none) with hl0
    set s0 := sortAccountsByRef l0 with hs0
    have hperm : List.Perm s0 l0 := List.perm_insertionSort refLE l0
    have hkeysperm : List.Perm (s0.map (fun p => pageRefKey p.2))
        (accs.filterMap (fun a => a.pageReference)) := by
      rw [← hmapkeys]
      exact hperm.map _
    have hsorted : List.Sorted refLE s0 := List.sorted_insertionSort refLE l0
    have hpairLE : s0.Pairwise (fun x y => pageRefKey x.2 ≤ pageRefKey y.2) := hsorted
    have hnodupkeys : (s0.map (fun p => pageRefKey p.2)).Nodup :=
      hkeysperm.nodup_iff.mpr hnd
    have hpairNE : s0.Pairwise (fun x y => pageRefKey x.2 ≠ pageRefKey y.2) :=
      List.pairwise_map.mp hnodupkeys
    have hpairLT : s0.Pairwise (fun x y => pageRefKey x.2 < pageRefKey y.2) :=
      (hpairLE.and hpairNE).imp (fun h => lt_of_le_of_ne h.1 h.2)
    have hbounds : ∀ p ∈ s0, 1 ≤ pageRefKey p.2 ∧ pageRefKey p.2 ≤ N := by
      intro p hp
      exact hbnd (pageRefKey p.2) (hkeysperm.subset (List.mem_map_of_mem _ hp))
    obtain ⟨hmap, hchain, hle, hlast⟩ := rangesLoop_spec N s0 hbounds hpairLT
    have hdr : detailRanges accs N = (rangesLoop N s0).map (fun t => t.2) := rfl
    refine ⟨?_, ?_, ?_, ?_, ?_⟩
    · rw [hdr, List.map_map]
      have : (Prod.fst ∘ fun t : ℕ × ℕ × ℕ => t.2) = fun t : ℕ × ℕ × ℕ => t.2.1 := rfl
      rw [this, hmap]
      exact hkeysperm
    · rw [hdr, List.map_map]
      have : (Prod.fst ∘ fun t : ℕ × ℕ × ℕ => t.2) = fun t : ℕ × ℕ × ℕ => t.2.1 := rfl
      rw [this, hmap]
      exact List.pairwise_map.mpr hpairLT
    · rw [hdr]
      exact List.chain'_map_of_chain' (fun t : ℕ × ℕ × ℕ => t.2) (fun _ _ h => h) hchain
    · intro r hr
      rw [hdr] at hr
      rcases List.mem_map.mp hr with ⟨t, ht, rfl⟩
      exact hle t ht
    · intro r hr
      rw [hdr, List.getLast?_map] at hr
      rcases Option.map_eq_some'.mp hr with ⟨t, ht, rfl⟩
      exact hlast t ht
  · decide

/-- C2 (witness): the general range properties instantiated at the example
accounts with page references `[3, 7, 12]` and page count 15. -/
theorem c2_account_page_ranges_witness :
    (∀ a ∈ c2accounts, a.pageReference ≠ none) ∧
    (c2accounts.filterMap (fun a => a.pageReference)).Nodup ∧
    (∀ r ∈ c2accounts.filterMap (fun a => a.pageReference), 1 ≤ r ∧ r ≤ 15) ∧
    (List.Perm ((detailRanges c2accounts 15).map Prod.fst)
        (c2accounts.filterMap (fun a => a.pageReference)) ∧
     List.Sorted (· < ·) ((detailRanges c2accounts 15).map Prod.fst) ∧
     List.Chain' (fun r s => r.2 + 1 = s.1) (detailRanges c2accounts 15) ∧
     (∀ r ∈ detailRanges c2accounts 15, r.1 ≤ r.2) ∧
     (∀ r ∈ (detailRanges c2accounts 15).getLast?, r.2 = 15)) :=
  ⟨by decide, by decide, by decide,
   c2_account_page_ranges.1 c2accounts 15 (by decide) (by decide) (by decide)⟩

/-! ## Claims C7 and C10: pipeline invariants -/

theorem orElse_eq_some_cases {α : Type} {x y : Option α} {v : α}
    (h : (x <|> y) = some v) : x = some v ∨ y = some v := by
  cases x with
  | none => right; simpa using h
  | some w => left; simpa using h

theorem digits4Take_spec {s : List Char} {pr : List Char × List Char}
    (h : digits4Take s = some pr) : pr.1.length = 4 ∧ ∀ c ∈ pr.1, c.isDigit = true := by
  unfold digits4Take at h
  split at h
  · rename_i a b c d r
    split at h
    · rename_i hd
      cases h
      simp only [Bool.and_eq_true] at hd
      refine ⟨rfl, ?_⟩
      intro x hx
      rcases hx with _ | ⟨_, _ | ⟨_, _ | ⟨_, _ | ⟨_, hx⟩⟩⟩⟩
      · exact hd.1.1.1
      · exact hd.1.1.2
      · exact hd.1.2
      · exact hd.2
      · exact absurd hx (List.not_mem_nil x)
    · exact absurd h (by simp)
  · exact absurd h (by simp)

theorem findSome_digits4 {reps : List (List Char)} {d : List Char}
    (h : reps.findSome? (fun p => (digits4Take p).map Prod.fst) = some d) :
    d.length = 4 ∧ ∀ c ∈ d, c.isDigit = true := by
  obtain ⟨p, _, hp⟩ := List.exists_of_findSome?_eq_some h
  rcases Option.map_eq_some'.mp hp with ⟨pr, hdt, rfl⟩
  exact digits4Take_spec hdt

theorem acctNumCaptureAt_spec {s d : List Char} (h : acctNumCaptureAt s = some d) :
    d.length = 4 ∧ ∀ c ∈ d, c.isDigit = true := by
  simp only [acctNumCaptureAt] at h
  split at h
  · exact absurd h (by simp)
  · split at h
    · exact absurd h (by simp)
    · rcases orElse_eq_some_cases h with h2 | h2
      · rcases orElse_eq_some_cases h2 with h3 | h3
        · split at h3
          · exact findSome_digits4 h3
          · exact absurd h3 (by simp)
        · split at h3
          · exact findSome_digits4 h3
          · exact absurd h3 (by simp)
      · exact findSome_digits4 h2

theorem acctNumCapture_last4Ok {s : String} {str : String}
    (h : acctNumCapture s = some str) : last4Ok str := by
  rcases Option.map_eq_some'.mp h with ⟨d, hscan, rfl⟩
  obtain ⟨u, hu⟩ := scanFirst_eq_some hscan
  obtain ⟨hlen, hdig⟩ := acctNumCaptureAt_spec hu
  right
  exact ⟨le_of_eq hlen, hdig⟩

theorem detectStep_last4 (st : String × Option String) (b : TextBlock)
    (h : last4Ok st.1) : last4Ok (detectStep st b).1 := by
  simp only [detectStep]
  cases hc : acctNumCapture b.text with
  | none => exact h
  | some c => exact acctNumCapture_last4Ok hc

theorem foldl_detect_last4 : ∀ (bs : List TextBlock) (st : String × Option String),
    last4Ok st.1 → last4Ok (List.foldl detectStep st bs).1 := by
  intro bs
  induction bs with
  | nil => exact fun st h => h
  | cons b rest ih =>
    intro st h
    rw [List.foldl_cons]
    exact ih _ (detectStep_last4 st b h)

theorem detectAccountsFromText_spec {page : Page} {acc : Account}
    (h : detectAccountsFromText page = some acc) :
    accInit acc ∧ acc.pageReference = none := by
  simp only [detectAccountsFromText] at h
  split at h
  · cases h
    exact ⟨⟨foldl_detect_last4 page.textBlocks ("unknown", none) (Or.inl rfl), rfl⟩, rfl⟩
  · exact absurd h (by simp)

theorem truthyAmount_spec {o : Option ℚ} (h : truthyAmount o = true) :
    ∃ a, o = some a ∧ a ≠ 0 := by
  cases o with
  | none => exact absurd h (by simp [truthyAmount])
  | some a =>
    refine ⟨a, rfl, ?_⟩
    simpa [truthyAmount] using h

theorem depositRowToTx_txOk {row : List String} {t : Transaction}
    (h : depositRowToTx row = some t) : txOk t := by
  simp only [depositRowToTx] at h
  split at h
  · exact absurd h (by simp)
  · split at h
    · exact absurd h (by simp)
    · split at h
      · split at h
        · rename_i htruthy
          cases h
          exact truthyAmount_spec htruthy
        · exact absurd h (by simp)
      · exact absurd h (by simp)

theorem withdrawalRowToTx_txOk {row : List String} {t : Transaction}
    (h : withdrawalRowToTx row = some t) : txOk t := by
  simp only [withdrawalRowToTx] at h
  split at h
  · exact absurd h (by simp)
  · split at h
    · exact absurd h (by simp)
    · split at h
      · rename_i htruthy
        cases h
        exact truthyAmount_spec htruthy
      · exact absurd h (by simp)

theorem atmDebitRowToTx_txOk {row : List String} {t : Transaction}
    (h : atmDebitRowToTx row = some t) : txOk t := by
  simp only [atmDebitRowToTx] at h
  split at h
  · exact absurd h (by simp)
  · split at h
    · exact absurd h (by simp)
    · split at h
      · rename_i htruthy
        cases h
        exact truthyAmount_spec htruthy
      · exact absurd h (by simp)

theorem processDepositsTable_txOk (page : Page) (acct : Account) :
    ∀ t ∈ processDepositsTable page acct, txOk t := by
  intro t ht
  simp only [processDepositsTable] at ht
  split at ht
  · split at ht
    · exact absurd ht (List.not_mem_nil t)
    · split at ht
      · rcases List.mem_filterMap.mp ht with ⟨row, _, hrow⟩
        exact depositRowToTx_txOk hrow
      · exact absurd ht (List.not_mem_nil t)
  · exact absurd ht (List.not_mem_nil t)

theorem processWithdrawalsTable_txOk (page : Page) (acct : Account) :
    ∀ t ∈ processWithdrawalsTable page acct, txOk t := by
  intro t ht
  simp only [processWithdrawalsTable] at ht
  split at ht
  · split at ht
    · exact absurd ht (List.not_mem_nil t)
    · split at ht
      · rcases List.mem_filterMap.mp ht with ⟨row, _, hrow⟩
        exact withdrawalRowToTx_txOk hrow
      · exact absurd ht (List.not_mem_nil t)
  · exact absurd ht (List.not_mem_nil t)

theorem processAtmDebitTable_txOk (page : Page) (acct : Account) :
    ∀ t ∈ processAtmDebitTable page acct, txOk t := by
  intro t ht
  simp only [processAtmDebitTable] at ht
  split at ht
  · split at ht
    · exact absurd ht (List.not_mem_nil t)
    · split at ht
      · rcases List.mem_filterMap.mp ht with ⟨row, _, hrow⟩
        exact atmDebitRowToTx_txOk hrow
      · exact absurd ht (List.not_mem_nil t)
  · exact absurd ht (List.not_mem_nil t)

theorem collectTxGo_txOk (doc : Document) (acct : Account) (sp : ℕ) :
    ∀ (rem p : ℕ) (ds ws ad : List Transaction),
      (∀ t ∈ ds, txOk t) → (∀ t ∈ ws, txOk t) → (∀ t ∈ ad, txOk t) →
      (∀ t ∈ (collectTxGo doc acct sp p rem ds ws ad).1, txOk t) ∧
      (∀ t ∈ (collectTxGo doc acct sp p rem ds ws ad).2.1, txOk t) ∧
      (∀ t ∈ (collectTxGo doc acct sp p rem ds ws ad).2.2, txOk t) := by
  intro rem
  induction rem with
  | zero => exact fun p ds ws ad hd hw ha => ⟨hd, hw, ha⟩
  | succ rem ih =>
    intro p ds ws ad hd hw ha
    cases hp : processPage doc p with
    | none =>
      have heq : collectTxGo doc acct sp p (rem + 1) ds ws ad =
          collectTxGo doc acct sp (p + 1) rem ds ws ad := by
        simp only [collectTxGo, hp]
      rw [heq]
      exact ih (p + 1) ds ws ad hd hw ha
    | some page =>
      have hd2 : ∀ t ∈ ds ++ processDepositsTable page acct, txOk t := by
        intro t ht
        rcases List.mem_append.mp ht with h | h
        · exact hd t h
        · exact processDepositsTable_txOk page acct t h
      have ha2 : ∀ t ∈ ad ++ processAtmDebitTable page acct, txOk t := by
        intro t ht
        rcases List.mem_append.mp ht with h | h
        · exact ha t h
        · exact processAtmDebitTable_txOk page acct t h
      have hw2 : ∀ t ∈ ws ++ processWithdrawalsTable page acct, txOk t := by
        intro t ht
        rcases List.mem_append.mp ht with h | h
        · exact hw t h
        · exact processWithdrawalsTable_txOk page acct t h
      by_cases hend : (isEndOfAccountSection page acct && decide (sp < p)) = true
      · have heq : collectTxGo doc acct sp p (rem + 1) ds ws ad =
            (ds ++ processDepositsTable page acct,
             ws ++ processWithdrawalsTable page acct,
             ad ++ processAtmDebitTable page acct) := by
          simp only [collectTxGo, hp, hend, if_true]
        rw [heq]
        exact ⟨hd2, hw2, ha2⟩
      · have heq : collectTxGo doc acct sp p (rem + 1) ds ws ad =
            collectTxGo doc acct sp (p + 1) rem (ds ++ processDepositsTable page acct)
              (ws ++ processWithdrawalsTable page acct)
              (ad ++ processAtmDebitTable page acct) := by
          simp only [collectTxGo, hp]
          rw [if_neg hend]
        rw [heq]
        exact ih (p + 1) _ _ _ hd2 hw2 ha2

theorem processTransactionTables_last4 (doc : Document) (s e : ℕ) (acct : Account) :
    (processTransactionTables doc s e acct).accountNumberLast4 =
      acct.accountNumberLast4 := rfl

theorem processTransactionTables_txOk (doc : Document) (s e : ℕ) (acct : Account)
    (h : acctTxOk acct) : acctTxOk (processTransactionTables doc s e acct) := by
  intro t ht
  simp only [processTransactionTables] at ht
  obtain ⟨hc1, hc2, hc3⟩ := collectTxGo_txOk doc acct s (e + 1 - s) s [] [] []
    (fun t ht => absurd ht (List.not_mem_nil t))
    (fun t ht => absurd ht (List.not_mem_nil t))
    (fun t ht => absurd ht (List.not_mem_nil t))
  rcases List.mem_append.mp ht with ht2 | hta
  · rcases List.mem_append.mp ht2 with htd | htw
    · rcases List.mem_append.mp htd with h1 | h1
      · exact h t (List.mem_append_left _ (List.mem_append_left _ h1))
      · exact hc1 t h1
    · rcases List.mem_append.mp htw with h1 | h1
      · exact h t (List.mem_append_left _ (List.mem_append_right _ h1))
      · exact hc2 t h1
  · rcases List.mem_append.mp hta with h1 | h1
    · exact h t (List.mem_append_right _ h1)
    · exact hc3 t h1

theorem processAccountSummaryTable_last4 (page : Page) (a : Account) :
    (processAccountSummaryTable page a).accountNumberLast4 = a.accountNumberLast4 := by
  simp only [processAccountSummaryTable]
  split
  · rfl
  · split <;> rfl

theorem processAccountSummaryTable_tx (page : Page) (a : Account) :
    (processAccountSummaryTable page a).allTransactions = a.allTransactions := by
  simp only [processAccountSummaryTable]
  split
  · rfl
  · split <;> rfl

theorem processAccountSummaryTable_fields (page : Page) (a : Account) :
    (processAccountSummaryTable page a).accountNumberLast4 = a.accountNumberLast4 ∧
    (processAccountSummaryTable page a).allTransactions = a.allTransactions :=
  ⟨processAccountSummaryTable_last4 page a, processAccountSummaryTable_tx page a⟩

theorem acctTxOk_of_allTransactions_eq {a b : Account}
    (he : a.allTransactions = b.allTransactions) (h : acctTxOk b) : acctTxOk a := by
  intro t ht
  rw [he] at ht
  exact h t ht

theorem applyAccountStatement_spec (doc : Document) (acct : Account) (s e : ℕ) :
    (applyAccountStatement doc acct s e).accountNumberLast4 = acct.accountNumberLast4 ∧
    (acctTxOk acct → acctTxOk (applyAccountStatement doc acct s e)) := by
  unfold applyAccountStatement
  cases hp : processPage doc s with
  | none => exact ⟨rfl, fun h => h⟩
  | some fp =>
    obtain ⟨h4, htx⟩ := processAccountSummaryTable_fields fp acct
    constructor
    · rw [processTransactionTables_last4, h4]
    · intro h
      exact processTransactionTables_txOk doc s _ _
        (acctTxOk_of_allTransactions_eq htx h)

theorem takeRight4_last4Ok (l : List Char) :
    last4Ok (String.mk (((l.filter Char.isDigit).reverse.take 4).reverse)) := by
  right
  constructor
  · show (((l.filter Char.isDigit).reverse.take 4).reverse).length ≤ 4
    rw [List.length_reverse, List.length_take]
    omega
  · intro c hc
    have hc2 : c ∈ (l.filter Char.isDigit).reverse.take 4 := List.mem_reverse.mp hc
    have hc3 : c ∈ (l.filter Char.isDigit).reverse := List.mem_of_mem_take hc2
    have hc4 : c ∈ l.filter Char.isDigit := List.mem_reverse.mp hc3
    exact (List.mem_filter.mp hc4).2

theorem accountRowStep_inv (nameIdx numIdx balIdx pageIdx : Option ℕ)
    (st : List Account × ℚ) (row : List String)
    (h : ∀ x ∈ st.1, accInit x) :
    ∀ x ∈ (accountRowStep nameIdx numIdx balIdx pageIdx st row).1, accInit x := by
  intro x hx
  simp only [accountRowStep] at hx
  split at hx
  · split at hx
    · split at hx
      · exact h x hx
      · exact h x hx
    · exact h x hx
  · split at hx
    · exact h x hx
    · split at hx
      · exact h x hx
      · split at hx
        · exact h x hx
        · rcases List.mem_append.mp hx with h1 | h1
          · exact h x h1
          · rw [List.mem_singleton] at h1
            subst h1
            exact ⟨takeRight4_last4Ok _, rfl⟩

theorem foldl_accountRowStep_inv (nameIdx numIdx balIdx pageIdx : Option ℕ) :
    ∀ (rows : List (List String)) (st : List Account × ℚ),
      (∀ x ∈ st.1, accInit x) →
      ∀ x ∈ (rows.foldl (accountRowStep nameIdx numIdx balIdx pageIdx) st).1, accInit x := by
  intro rows
  induction rows with
  | nil => exact fun st h => h
  | cons r rest ih =>
    intro st h
    rw [List.foldl_cons]
    exact ih _ (accountRowStep_inv nameIdx numIdx balIdx pageIdx st r h)

theorem extractAccountInfoFromTable_accounts (page : Page) (tbl : ProcessedTable)
    (d : ProcessedStatementData) (h : ∀ x ∈ d.accounts, accInit x) :
    ∀ x ∈ (extractAccountInfoFromTable page tbl d).accounts, accInit x := by
  intro x hx
  simp only [extractAccountInfoFromTable] at hx
  split at hx
  · exact h x hx
  · split at hx
    · exact h x hx
    · exact foldl_accountRowStep_inv _ _ _ _ _ ([], 0)
        (fun y hy => absurd hy (List.not_mem_nil y)) x hx

theorem extractStatementPeriod_accounts (dd : TemplateResults)
    (d : ProcessedStatementData) :
    (extractStatementPeriod dd d).accounts = d.accounts := by
  unfold extractStatementPeriod
  split
  · split <;> rfl
  · split <;> rfl

theorem processCombinedStatementPage_accInit (page : Page) (d : ProcessedStatementData)
    (h : ∀ x ∈ d.accounts, accInit x) :
    ∀ x ∈ (processCombinedStatementPage page d).accounts, accInit x := by
  intro x hx
  simp only [processCombinedStatementPage] at hx
  have hper := extractStatementPeriod_accounts
    (computeTemplateExtraction page dateExtractionTemplate) d
  split at hx
  · rw [hper] at hx
    exact h x hx
  · split at hx
    · refine extractAccountInfoFromTable_accounts page _ _ ?_ x hx
      rw [hper]
      exact h
    · rw [hper] at hx
      exact h x hx

theorem processNonCombinedStatementPage_accInit (page : Page)
    (d : ProcessedStatementData) (h : ∀ x ∈ d.accounts, accInit x) :
    ∀ x ∈ (processNonCombinedStatementPage page d).accounts, accInit x := by
  intro x hx
  simp only [processNonCombinedStatementPage] at hx
  have hper := extractStatementPeriod_accounts
    (computeTemplateExtraction page dateExtractionTemplate) d
  have hacc1 : ∀ y ∈ (match detectAccountsFromText page with
      | some a => (extractStatementPeriod
          (computeTemplateExtraction page dateExtractionTemplate) d).accounts ++ [a]
      | none => (extractStatementPeriod
          (computeTemplateExtraction page dateExtractionTemplate) d).accounts), accInit y := by
    intro y hy
    split at hy
    · rcases List.mem_append.mp hy with h1 | h1
      · rw [hper] at h1
        exact h y h1
      · rw [List.mem_singleton] at h1
        subst h1
        rename_i a ha
        exact (detectAccountsFromText_spec ha).1
    · rw [hper] at hy
      exact h y hy
  have hacc2 : ∀ y ∈ (if (match detectAccountsFromText page with
      | some a => (extractStatementPeriod
          (computeTemplateExtraction page dateExtractionTemplate) d).accounts ++ [a]
      | none => (extractStatementPeriod
          (computeTemplateExtraction page dateExtractionTemplate) d).accounts).isEmpty
      then [defaultUnknownAccount]
      else (match detectAccountsFromText page with
      | some a => (extractStatementPeriod
          (computeTemplateExtraction page dateExtractionTemplate) d).accounts ++ [a]
      | none => (extractStatementPeriod
          (computeTemplateExtraction page dateExtractionTemplate) d).accounts)), accInit y := by
    intro y hy
    split at hy
    · rw [List.mem_singleton] at hy
      subst hy
      exact ⟨Or.inl rfl, rfl⟩
    · exact hacc1 y hy
  revert hx
  generalize hgen : (if (match detectAccountsFromText page with
      | some a => (extractStatementPeriod
          (computeTemplateExtraction page dateExtractionTemplate) d).accounts ++ [a]
      | none => (extractStatementPeriod
          (computeTemplateExtraction page dateExtractionTemplate) d).accounts).isEmpty
      then [defaultUnknownAccount]
      else (match detectAccountsFromText page with
      | some a => (extractStatementPeriod
          (computeTemplateExtraction page dateExtractionTemplate) d).accounts ++ [a]
      | none => (extractStatementPeriod
          (computeTemplateExtraction page dateExtractionTemplate) d).accounts)) = accs2
  rw [hgen] at hacc2
  intro hx
  cases accs2 with
  | nil => exact absurd hx (List.not_mem_nil x)
  | cons a t =>
    rcases List.mem_cons.mp hx with h1 | h1
    · subst h1
      have := hacc2 a (List.mem_cons_self a t)
      exact ⟨this.1, this.2⟩
    · exact hacc2 x (List.mem_cons_of_mem a h1)

theorem mem_enumFrom_snd {α : Type} : ∀ (l : List α) (n : ℕ) (p : ℕ × α),
    p ∈ List.enumFrom n l → p.2 ∈ l := by
  intro l
  induction l with
  | nil => intro n p hp; exact absurd hp (List.not_mem_nil p)
  | cons a t ih =>
    intro n p hp
    rw [List.enumFrom_cons] at hp
    rcases List.mem_cons.mp hp with h | h
    · subst h
      exact List.mem_cons_self a t
    · exact List.mem_cons_of_mem a (ih (n + 1) p h)

theorem acctTxOk_of_accInit {a : Account} (h : accInit a) : acctTxOk a := by
  intro t ht
  rw [h.2] at ht
  exact absurd ht (List.not_mem_nil t)

theorem processAccountDetailPages_spec (doc : Document) (d : ProcessedStatementData)
    (h : ∀ x ∈ d.accounts, accInit x) :
    ∀ x ∈ (processAccountDetailPages doc d).accounts,
      last4Ok x.accountNumberLast4 ∧ acctTxOk x := by
  intro x hx
  simp only [processAccountDetailPages] at hx
  rcases List.mem_map.mp hx with ⟨p, hp, rfl⟩
  have hmem : p.2 ∈ d.accounts := mem_enumFrom_snd d.accounts 0 p hp
  have hinit : accInit p.2 := h p.2 hmem
  split
  · rename_i t _
    obtain ⟨h4, htx⟩ := applyAccountStatement_spec doc p.2 t.2.1 t.2.2
    rw [h4]
    exact ⟨hinit.1, htx (acctTxOk_of_accInit hinit)⟩
  · exact ⟨hinit.1, acctTxOk_of_accInit hinit⟩

theorem bofaProcess_accounts (doc : Document) (raw : String) :
    ∀ x ∈ (bofaProcess doc raw).accounts,
      last4Ok x.accountNumberLast4 ∧ acctTxOk x := by
  intro x hx
  simp only [bofaProcess] at hx
  split at hx
  · exact absurd hx (List.not_mem_nil x)
  · rename_i firstPage _
    refine processAccountDetailPages_spec doc _ ?_ x hx
    split
    · exact processCombinedStatementPage_accInit firstPage _
        (fun y hy => absurd hy (List.not_mem_nil y))
    · exact processNonCombinedStatementPage_accInit firstPage _
        (fun y hy => absurd hy (List.not_mem_nil y))

/-- C7 (counterexample): on a combined-statement document whose account
summary table puts the digit-free word "Interest" in the account-number
column, the parser emits an account whose `accountNumberLast4` is the empty
string, which is neither the sentinel `"unknown"` nor a string of exactly
four digits. -/
theorem c7_counterexample :
    (bofaProcess c7doc "").accounts.map Account.accountNumberLast4 = [""] ∧
    ("" : String) ≠ "unknown" ∧ ¬ ("" : String).length = 4 :=
  ⟨by decide, by decide, by decide⟩

/-- C7 (amended): for every account in the parser's output,
`accountNumberLast4` is either the sentinel `"unknown"` or a string of at
most four decimal digits; the summary-table path keeps only the last up-to-4
digits of the cell and may yield fewer than four (even zero) digits. -/
theorem c7_last4_invariant (doc : Document) (raw : String) :
    ∀ acc ∈ (bofaProcess doc raw).accounts, last4Ok acc.accountNumberLast4 :=
  fun acc h => (bofaProcess_accounts doc raw acc h).1

theorem c7_last4_invariant_witness :
    (⟨"", some "Interest", none, emptyTx, emptyMeta⟩ : Account) ∈
      (bofaProcess c7doc "").accounts ∧
    last4Ok (Account.accountNumberLast4
      ⟨"", some "Interest", none, emptyTx, emptyMeta⟩) :=
  ⟨by decide, c7_last4_invariant c7doc ""
    ⟨"", some "Interest", none, emptyTx, emptyMeta⟩ (by decide)⟩

/-- C10: every transaction in the deposits, withdrawals or atmDebit list of
any account produced by the parser has a non-null, non-zero amount (the push
is guarded by the JavaScript truthiness of `transaction.amount`); concretely,
a deposits row whose extracted amount is exactly `0.00` is discarded while
the same row with amount `7.50` is kept. -/
theorem c10_truthy_amounts :
    (∀ (doc : Document) (raw : String),
      ∀ acc ∈ (bofaProcess doc raw).accounts, acctTxOk acc) ∧
    processDepositsTable c10page defaultUnknownAccount = [] ∧
    (processDepositsTable c10bpage defaultUnknownAccount).map
      Transaction.amount = [some (15/2)] :=
  ⟨fun doc raw acc h => (bofaProcess_accounts doc raw acc h).2,
   by decide, by decide⟩

theorem c10_truthy_amounts_witness :
    acctTxOk ⟨"unknown", none, some 1,
      ⟨[⟨some "01/02/24", some "PAYPAL", some (15/2), TxType.DEPOSIT,
        "01/02/24 PAYPAL 7.50"⟩], [], [], [], [], []⟩, emptyMeta⟩ :=
  c10_truthy_amounts.1 c10bdoc ""
    ⟨"unknown", none, some 1,
      ⟨[⟨some "01/02/24", some "PAYPAL", some (15/2), TxType.DEPOSIT,
        "01/02/24 PAYPAL 7.50"⟩], [], [], [], [], []⟩, emptyMeta⟩ (by decide)

end BofA
